import Mathlib

/-!
TinyRISCV64: a shallow embedding of the RV64IM virtual machine.

The definitions below follow `src/TinyRISCV64.h` function by function.

Conventions of the embedding.

* Every machine integer is carried as a natural number holding its bit pattern; the
  wrap-around of the fixed-width C++ types is written out as `% 2 ^ w`.  A value of a
  signed type (`i8` .. `i64`) is carried as its two's-complement pattern and is read as
  an integer by `as_signed` exactly where the source computes with the signed type
  (comparisons, arithmetic right shifts, division).
* `std::array<u64,32> x` is a function from the register index to the content; the
  decoder masks every index with `0x1f`, so only the indices `0 .. 31` are ever used.
  The contents are meant to be below `2^64`; every value the VM writes is.
* `std::vector<u8> program`, `std::vector<u8> stack` and the span `data` are lists of
  bytes.  Reading or writing a `T` through `reinterpret_cast<T*>` is modelled for a
  little-endian host that permits unaligned accesses (least significant byte at the
  lowest address), the hosts the VM is built for.
* A C++ exception is a `Fault`; the result of a function that may throw records the state
  the VM object is left in when the exception propagates.
* Places where the C++ standard leaves the behaviour undefined (an access outside a
  buffer, a signed division whose quotient is not representable) yield `undefined`.
* The loops take a `fuel` argument bounding the number of iterations; `none` means that
  the fuel was used up before the loop was left.
-/

namespace TinyRISCV64

/-! ## Fixed-width integers -/

/-- Conversion to `u8`: the value modulo `2^8`. -/
def u8 (n : Nat) : Nat := n % 2 ^ 8

/-- Conversion to `u16`: the value modulo `2^16`. -/
def u16 (n : Nat) : Nat := n % 2 ^ 16

/-- Conversion to `u32`: the value modulo `2^32`. -/
def u32 (n : Nat) : Nat := n % 2 ^ 32

/-- Conversion to `u64`: the value modulo `2^64`. -/
def u64 (n : Nat) : Nat := n % 2 ^ 64

/-- The integer denoted by the low `w` bits of `n` read as a two's-complement number
(`static_cast` of a bit pattern to the signed type of width `w`). -/
def as_signed (w n : Nat) : Int :=
  if n % 2 ^ w < 2 ^ (w - 1) then ((n % 2 ^ w : Nat) : Int)
  else ((n % 2 ^ w : Nat) : Int) - ((2 ^ w : Nat) : Int)

/-- The `w`-bit two's-complement pattern of an integer (conversion of a signed value to
the unsigned type of width `w`, which is modular). -/
def of_signed (w : Nat) (i : Int) : Nat := (i % ((2 ^ w : Nat) : Int)).toNat

/-- Widening of the signed `w`-bit value held in the low bits of `n` to 64 bits
(`static_cast<i64>(static_cast<iW>(n))`), as a 64-bit pattern. -/
def sign_extend (w n : Nat) : Nat := of_signed 64 (as_signed w n)

/-- Arithmetic right shift of the signed `w`-bit value `n` by `sh`, as a `w`-bit pattern. -/
def sar (w n sh : Nat) : Nat := of_signed w (as_signed w n >>> sh)

/-! ## Exceptions and results -/

/-- The exceptions thrown by the VM.  `out_of_bounds` and `max_instructions` are
`std::runtime_error`; all the others are `std::invalid_argument`. -/
inductive Fault where
  | invalid_register
  | program_too_large
  | no_memory_context
  | max_instructions
  | invalid_program
  | unknown_opcode
  | out_of_bounds
  | unknown_branch
  | unknown_load
  | unknown_store
  | unknown_alu_imm
  | unknown_alu_imm32
  | unknown_alu_reg
  | unknown_alu_reg32
  deriving DecidableEq, Repr

/-- Whether the exception is a `std::invalid_argument` (otherwise a `std::runtime_error`). -/
def Fault.is_invalid_argument : Fault → Bool
  | .out_of_bounds => false
  | .max_instructions => false
  | _ => true

/-- Result of a helper that returns a value, throws, or runs into undefined behaviour. -/
inductive Res (α : Type) where
  | ok (a : α)
  | fault (e : Fault)
  | undefined

/-- The VM object: the private members of `class VM`. -/
structure VM where
  pc : Nat
  program : List Nat
  x : Nat → Nat
  stack : List Nat
  data : List Nat
  halted : Bool

/-- Result of a member function that changes the VM: normal return with the new state, an
exception together with the state the object is left in, or undefined behaviour. -/
inductive Outcome where
  | ok (s : VM)
  | fault (e : Fault) (s : VM)
  | undefined

/-- The assignment `x[r] = v`. -/
def VM.write (s : VM) (r v : Nat) : VM :=
  { s with x := fun i => if i = r then v else s.x i }

/-- The constructor `VM(stack_size)`: a zeroed stack and zeroed registers.  (`pc` and
`halted` are left uninitialised by the source; they are assigned before they are read.) -/
def VM.construct (stack_size : Nat) : VM :=
  { pc := 0, program := [], x := fun _ => 0, stack := List.replicate stack_size 0,
    data := [], halted := false }

/-- `set_register`: writes to `x0` are ignored. -/
def set_register (reg : Int) (value : Nat) (s : VM) : Outcome :=
  if reg < 0 ∨ reg ≥ 32 then .fault .invalid_register s
  else if reg ≠ 0 then .ok (s.write reg.toNat value) else .ok s

/-- `get_register`: returns `x[reg]`. -/
def get_register (reg : Int) (s : VM) : Res Nat :=
  if reg < 0 ∨ reg ≥ 32 then .fault .invalid_register
  else .ok (s.x reg.toNat)

/-- `set_memory`: attaches the host buffer as the data region. -/
def set_memory (mem : List Nat) (s : VM) : VM := { s with data := mem }

/-! ## Memory access helpers -/

/-- The value of the `w` bytes at `off`, least significant byte first; `none` when the
bytes are not all inside the buffer. -/
def read_le (mem : List Nat) (off : Nat) : Nat → Option Nat
  | 0 => some 0
  | w + 1 =>
    match mem.get? off, read_le mem (off + 1) w with
    | some b, some r => some (b + 256 * r)
    | _, _ => none

/-- The buffer with the low `w` bytes of `v` stored at `off`, least significant byte first. -/
def write_le (mem : List Nat) (off v : Nat) : Nat → List Nat
  | 0 => mem
  | w + 1 => write_le (mem.set off (v % 256)) (off + 1) (v / 256) w

/-- The object a `T&` returned by `mem_ref` designates: `sizeof(T)` bytes at an offset of
the data buffer (`in_data`) or of the stack buffer. -/
structure Ref where
  in_data : Bool
  off : Nat

/-- `mem_ref<T>(addr)` with `w = sizeof(T)`.  Both sums are sums of `u64`/`size_t`. -/
def mem_ref (w addr : Nat) (s : VM) : Res Ref :=
  if u64 (addr + w) > u64 (s.data.length + s.stack.length) then .fault .out_of_bounds
  else if addr < s.data.length ∧ u64 (addr + w) > s.data.length then .fault .out_of_bounds
  else if addr < s.data.length then .ok ⟨true, addr⟩
  else .ok ⟨false, addr - s.data.length⟩

/-- `mem_load<T>(addr)`: the value read through the reference; reading outside the buffer
is undefined. -/
def mem_load (w addr : Nat) (s : VM) : Res Nat :=
  match mem_ref w addr s with
  | .ok r =>
    match read_le (if r.in_data then s.data else s.stack) r.off w with
    | some v => .ok v
    | none => .undefined
  | .fault e => .fault e
  | .undefined => .undefined

/-- `mem_store<T>(addr, value)`: stores the low `8 * w` bits of `value` through the
reference; writing outside the buffer is undefined. -/
def mem_store (w addr value : Nat) (s : VM) : Outcome :=
  match mem_ref w addr s with
  | .ok r =>
    if r.in_data then
      if r.off + w ≤ s.data.length then .ok { s with data := write_le s.data r.off value w }
      else .undefined
    else
      if r.off + w ≤ s.stack.length then .ok { s with stack := write_le s.stack r.off value w }
      else .undefined
  | .fault e => .fault e s
  | .undefined => .undefined

/-! ## Instruction execution helpers -/

/-- `exec_branch`: `pc` has already been advanced past the branch. -/
def exec_branch (funct3 rs1 rs2 imm : Nat) (s : VM) : Outcome :=
  let go (taken : Bool) : Outcome :=
    if taken then .ok { s with pc := u64 (s.pc + u64 (imm + (2 ^ 64 - 4))) } else .ok s
  match funct3 with
  | 0 => go (s.x rs1 == s.x rs2)                                          -- BEQ
  | 1 => go (s.x rs1 != s.x rs2)                                          -- BNE
  | 4 => go (decide (as_signed 64 (s.x rs1) < as_signed 64 (s.x rs2)))    -- BLT
  | 5 => go (decide (as_signed 64 (s.x rs1) ≥ as_signed 64 (s.x rs2)))    -- BGE
  | 6 => go (decide (s.x rs1 < s.x rs2))                                  -- BLTU
  | 7 => go (decide (s.x rs1 ≥ s.x rs2))                                  -- BGEU
  | _ => .fault .unknown_branch s

/-- `exec_load`: the loaded value is converted to `i64` (sign extension) for the signed
types and to `u64` (zero extension) for the unsigned ones. -/
def exec_load (funct3 rd rs1 imm : Nat) (s : VM) : Outcome :=
  let addr := u64 (s.x rs1 + imm)
  let go (w : Nat) (conv : Nat → Nat) : Outcome :=
    match mem_load w addr s with
    | .ok v => .ok (s.write rd (conv v))
    | .fault e => .fault e s
    | .undefined => .undefined
  match funct3 with
  | 0 => go 1 (sign_extend 8)    -- LB
  | 1 => go 2 (sign_extend 16)   -- LH
  | 2 => go 4 (sign_extend 32)   -- LW
  | 3 => go 8 id                 -- LD
  | 4 => go 1 id                 -- LBU
  | 5 => go 2 id                 -- LHU
  | 6 => go 4 id                 -- LWU
  | _ => .fault .unknown_load s

/-- `exec_store`: `x[rs2]` is converted to the stored type (truncation). -/
def exec_store (funct3 rs1 rs2 imm : Nat) (s : VM) : Outcome :=
  let addr := u64 (s.x rs1 + imm)
  match funct3 with
  | 0 => mem_store 1 addr (u8 (s.x rs2)) s    -- SB
  | 1 => mem_store 2 addr (u16 (s.x rs2)) s   -- SH
  | 2 => mem_store 4 addr (u32 (s.x rs2)) s   -- SW
  | 3 => mem_store 8 addr (u64 (s.x rs2)) s   -- SD
  | _ => .fault .unknown_store s

/-- `exec_alu_imm`: `imm` is the 64-bit pattern of the `i64` immediate. -/
def exec_alu_imm (funct3 funct7 rd rs1 imm shamt : Nat) (s : VM) : Outcome :=
  match funct3 with
  | 0 => .ok (s.write rd (u64 (s.x rs1 + imm)))                                      -- ADDI
  | 1 => .ok (s.write rd (u64 (s.x rs1 <<< shamt)))                                  -- SLLI
  | 2 => .ok (s.write rd (if as_signed 64 (s.x rs1) < as_signed 64 imm then 1 else 0)) -- SLTI
  | 3 => .ok (s.write rd (if s.x rs1 < imm then 1 else 0))                           -- SLTIU
  | 4 => .ok (s.write rd (s.x rs1 ^^^ imm))                                          -- XORI
  | 5 =>
    if funct7 = 0 then .ok (s.write rd (s.x rs1 >>> shamt))                          -- SRLI
    else .ok (s.write rd (sar 64 (s.x rs1) shamt))                                   -- SRAI
  | 6 => .ok (s.write rd (s.x rs1 ||| imm))                                          -- ORI
  | 7 => .ok (s.write rd (s.x rs1 &&& imm))                                          -- ANDI
  | _ => .fault .unknown_alu_imm s

/-- `exec_alu_imm32`: the parameter `imm` is an `i32`, so the `i64` argument is
truncated to 32 bits on entry; `result` is a `u32`. -/
def exec_alu_imm32 (funct3 funct7 rd rs1 imm shamt : Nat) (s : VM) : Outcome :=
  let imm := u32 imm
  let finish (result : Nat) : Outcome := .ok (s.write rd (sign_extend 32 result))
  match funct3 with
  | 0 => finish (u32 (u32 (s.x rs1) + imm))          -- ADDIW
  | 1 => finish (u32 (u32 (s.x rs1) <<< shamt))      -- SLLIW
  | 5 =>
    if funct7 = 0 then finish (u32 (s.x rs1) >>> shamt)   -- SRLIW
    else finish (sar 32 (s.x rs1) shamt)                  -- SRAIW
  | _ => .fault .unknown_alu_imm32 s

/-- The quotient or remainder of a signed division of `w`-bit patterns (truncating, as in
C++), as a `w`-bit pattern; undefined when the quotient is not representable. -/
def signed_div_rem (w : Nat) (rem : Bool) (a b : Nat) : Option Nat :=
  if as_signed w a = -((2 ^ (w - 1) : Nat) : Int) ∧ as_signed w b = -1 then none
  else if rem then some (of_signed w (Int.tmod (as_signed w a) (as_signed w b)))
  else some (of_signed w (Int.tdiv (as_signed w a) (as_signed w b)))

/-- `exec_alu_reg`: `op` is a `u8`, so `funct7 << 3 | funct3` is reduced modulo 256
before the `switch`. -/
def exec_alu_reg (funct3 funct7 rd rs1 rs2 : Nat) (s : VM) : Outcome :=
  let op := u8 ((funct7 <<< 3) ||| funct3)
  let a := s.x rs1
  let b := s.x rs2
  let div (r : Option Nat) : Outcome :=
    match r with
    | some v => .ok (s.write rd v)
    | none => .undefined
  match op with
  | 0x000 => .ok (s.write rd (u64 (a + b)))                                     -- ADD
  | 0x100 => .ok (s.write rd (u64 (a + (2 ^ 64 - b))))                          -- SUB
  | 0x001 => .ok (s.write rd (u64 (a <<< (b &&& 0x3f))))                        -- SLL
  | 0x002 => .ok (s.write rd (if as_signed 64 a < as_signed 64 b then 1 else 0)) -- SLT
  | 0x003 => .ok (s.write rd (if a < b then 1 else 0))                          -- SLTU
  | 0x004 => .ok (s.write rd (a ^^^ b))                                         -- XOR
  | 0x005 => .ok (s.write rd (a >>> (b &&& 0x3f)))                              -- SRL
  | 0x105 => .ok (s.write rd (sar 64 a (b &&& 0x3f)))                           -- SRA
  | 0x006 => .ok (s.write rd (a ||| b))                                         -- OR
  | 0x007 => .ok (s.write rd (a &&& b))                                         -- AND
  -- M extension
  | 0x008 => .ok (s.write rd (u64 (a * b)))                                     -- MUL
  | 0x009 => .ok (s.write rd (of_signed 64 ((as_signed 64 a * as_signed 64 b) >>> (64 : Nat)))) -- MULH
  | 0x00a => .ok (s.write rd (u64 ((of_signed 128 (as_signed 64 a) * b % 2 ^ 128) >>> 64))) -- MULHSU
  | 0x00b => .ok (s.write rd (u64 ((a * b % 2 ^ 128) >>> 64)))                  -- MULHU
  | 0x00c => if b ≠ 0 then div (signed_div_rem 64 false a b)
             else .ok (s.write rd (2 ^ 64 - 1))                                 -- DIV
  | 0x00d => if b ≠ 0 then .ok (s.write rd (a / b))
             else .ok (s.write rd (2 ^ 64 - 1))                                 -- DIVU
  | 0x00e => if b ≠ 0 then div (signed_div_rem 64 true a b)
             else .ok (s.write rd a)                                            -- REM
  | 0x00f => if b ≠ 0 then .ok (s.write rd (a % b))
             else .ok (s.write rd a)                                            -- REMU
  | _ => .fault .unknown_alu_reg s

/-- `exec_alu_reg32`: `a` and `b` are the low 32 bits of the operands; `result` is an
`i32`, carried as its 32-bit pattern and widened to 64 bits at the end. -/
def exec_alu_reg32 (funct3 funct7 rd rs1 rs2 : Nat) (s : VM) : Outcome :=
  let op := u8 ((funct7 <<< 3) ||| funct3)
  let a := u32 (s.x rs1)
  let b := u32 (s.x rs2)
  let finish (result : Nat) : Outcome := .ok (s.write rd (sign_extend 32 result))
  let div (r : Option Nat) : Outcome :=
    match r with
    | some v => finish v
    | none => .undefined
  match op with
  | 0x000 => finish (u32 (a + b))                       -- ADDW
  | 0x100 => finish (u32 (a + (2 ^ 32 - b)))            -- SUBW
  | 0x001 => finish (u32 (a <<< (b &&& 0x1f)))          -- SLLW
  | 0x005 => finish (a >>> (b &&& 0x1f))                -- SRLW
  | 0x105 => finish (sar 32 a (b &&& 0x1f))             -- SRAW
  -- M extension 32-bit
  | 0x008 => finish (u32 (a * b))                       -- MULW
  | 0x00c => if b ≠ 0 then div (signed_div_rem 32 false a b)
             else finish (2 ^ 32 - 1)                   -- DIVW
  | 0x00d => if b ≠ 0 then finish (a / b)
             else finish (2 ^ 32 - 1)                   -- DIVUW
  | 0x00e => if b ≠ 0 then div (signed_div_rem 32 true a b)
             else finish a                              -- REMW
  | 0x00f => if b ≠ 0 then finish (a % b)
             else finish a                              -- REMUW
  | _ => .fault .unknown_alu_reg32 s

/-! ## Decode and dispatch -/

/-- The fields and immediates `execute_instruction` decodes from the `u32` word `inst`.
The immediates `imm_i`, `imm_s`, `imm_b`, `imm_j` are `i64` values, carried as 64-bit
patterns; `imm_u` is a `u64`. -/
structure Decoded where
  opcode : Nat
  funct3 : Nat
  funct7 : Nat
  rd : Nat
  rs1 : Nat
  rs2 : Nat
  shamt : Nat
  imm_i : Nat
  imm_s : Nat
  imm_b : Nat
  imm_j : Nat
  imm_u : Nat

/-- The `// Decode` block of `execute_instruction`. -/
def decode (inst : Nat) : Decoded :=
  let opcode := u8 (inst &&& 0x7f)
  let funct3 := u8 ((inst >>> 12) &&& 0x7)
  let funct7 := u8 ((inst >>> 25) &&& 0x7f)
  let rd := u8 ((inst >>> 7) &&& 0x1f)
  let rs1 := u8 ((inst >>> 15) &&& 0x1f)
  let rs2 := u8 ((inst >>> 20) &&& 0x1f)
  let shamt := rs2
  let imm_i := sign_extend 32 (sar 32 inst 20)
  let imm_s := (imm_i &&& (2 ^ 64 - 1 - 0x1f)) ||| rd
  let imm_b := sar 64 (sign_extend 32 (inst &&& 0x80000000)) 19 |||
    u32 ((inst &&& 0x80) <<< 4) ||| ((inst >>> 20) &&& 0x7e0) ||| ((inst >>> 7) &&& 0x1e)
  let imm_j := sar 64 (sign_extend 32 (inst &&& 0x80000000)) 11 |||
    (inst &&& 0xff000) ||| ((inst >>> 9) &&& 0x800) ||| ((inst >>> 20) &&& 0x7fe)
  let imm_u := inst &&& 0xfffff000
  { opcode, funct3, funct7, rd, rs1, rs2, shamt, imm_i, imm_s, imm_b, imm_j, imm_u }

/-- `execute_instruction`: `inst` is the fetched `u32` word; `pc` has already been
advanced by 4. -/
def execute_instruction (inst : Nat) (s : VM) : Outcome :=
  -- Decode
  let d := decode inst
  -- Execute
  let s := s.write 0 0 -- Ensure x0 stays zero
  match d.opcode with
  | 0x37 => .ok (s.write d.rd d.imm_u)                                      -- LUI
  | 0x17 => .ok (s.write d.rd (u64 (u64 (s.pc + (2 ^ 64 - 4)) + d.imm_u)))  -- AUIPC
  | 0x6f =>                                                                 -- JAL
    let s := s.write d.rd s.pc
    .ok { s with pc := u64 (s.pc + u64 (d.imm_j + (2 ^ 64 - 4))) }
  | 0x67 =>                                                                 -- JALR
    let target := u64 (s.x d.rs1 + d.imm_i) &&& (2 ^ 64 - 1 - 1)
    let s := s.write d.rd s.pc
    .ok { s with pc := target }
  | 0x63 => exec_branch d.funct3 d.rs1 d.rs2 d.imm_b s                      -- Branch
  | 0x03 => exec_load d.funct3 d.rd d.rs1 d.imm_i s                         -- Load
  | 0x23 => exec_store d.funct3 d.rs1 d.rs2 d.imm_s s                       -- Store
  | 0x13 => exec_alu_imm d.funct3 d.funct7 d.rd d.rs1 d.imm_i d.shamt s     -- ALU immediate
  | 0x1b => exec_alu_imm32 d.funct3 d.funct7 d.rd d.rs1 d.imm_i d.shamt s   -- ALU immediate 32-bit
  | 0x33 => exec_alu_reg d.funct3 d.funct7 d.rd d.rs1 d.rs2 s               -- ALU register
  | 0x3b => exec_alu_reg32 d.funct3 d.funct7 d.rd d.rs1 d.rs2 s             -- ALU register 32-bit
  | 0x0f => .ok s                                                           -- FENCE (nop)
  | 0x73 =>                                                                 -- SYSTEM
    if inst = 0x00100073 then .ok { s with halted := true } else .ok s      -- EBREAK
  | _ => .fault .unknown_opcode s

/-! ## The fetch loops -/

/-- The word `*reinterpret_cast<const u32*>(&program[pc])`; `none` when the four bytes are
not all inside the image (an out-of-range read, undefined in the source). -/
def fetch (s : VM) : Option Nat := read_le s.program s.pc 4

/-- The three statements both loops share: fetch the word at `pc`, `pc += 4`,
`execute_instruction(inst)`. -/
def fetch_execute (s : VM) : Outcome :=
  match fetch s with
  | some inst => execute_instruction inst { s with pc := u64 (s.pc + 4) }
  | none => .undefined

/-- The loop condition `pc+3 < program.size()` (the sum is a `u64`). -/
def in_image (s : VM) : Bool := decide (u64 (s.pc + 3) < s.program.length)

/-- The `while` loop of `execute_program`; `count` is the `size_t` counter. -/
def execute_loop (max_instructions : Nat) : Nat → Nat → VM → Option Outcome
  | 0, _, _ => none
  | fuel + 1, count, s =>
    if !s.halted && in_image s then
      let count := u64 (count + 1)
      if count > max_instructions then some (.fault .max_instructions s)
      else
        match fetch_execute s with
        | .ok s1 => execute_loop max_instructions fuel count s1
        | .fault e s1 => some (.fault e s1)
        | .undefined => some .undefined
    else some (.ok s)

/-- `execute_program(entry_point, max_instructions)`. -/
def execute_program (fuel entry_point max_instructions : Nat) (s : VM) : Option Outcome :=
  let s := { s with pc := entry_point, halted := false }
  if s.data.isEmpty then some (.fault .no_memory_context s)
  else
    -- x2 - stack pointer (sp)
    let s := s.write 2 (u64 (s.data.length + s.stack.length))
    execute_loop max_instructions fuel 0 s

/-- The `for` loop of `validate_program`; `err` collects the caught
`std::invalid_argument` exceptions.  When the body throws, the assignment `pc = tmp_pc`
is not reached, and the loop increment applies to the advanced `pc`. -/
def validate_loop : Nat → List Fault → VM → Option (Res (List Fault × VM))
  | 0, _, _ => none
  | fuel + 1, err, s =>
    if in_image s then
      let tmp_pc := s.pc
      match fetch_execute s with
      | .ok s1 => validate_loop fuel err { s1 with pc := u64 (tmp_pc + 4) }
      | .fault e s1 =>
        validate_loop fuel (if e.is_invalid_argument then err ++ [e] else err)
          { s1 with pc := u64 (s1.pc + 4) }
      | .undefined => some .undefined
    else some (.ok (err, s))

/-- `validate_program`: the dry run over the image with the data region detached. -/
def validate_program (s : VM) : Option Outcome :=
  let backup_mem := s.data
  match validate_loop (s.program.length + 1) [] { s with data := [], pc := 0 } with
  | none => none
  | some .undefined => some .undefined
  | some (.fault e) => some (.fault e s)
  | some (.ok (err, s)) =>
    let s := { s with data := backup_mem }
    let s := { s with x := fun _ => 0 }
    -- x2 - stack pointer (sp)
    let s := s.write 2 (u64 (s.data.length + s.stack.length))
    if err ≠ [] then some (.fault .invalid_program s) else some (.ok s)

/-- `load_program(prog, size)`: `prog` is the byte sequence, `size` its length. -/
def load_program (prog : List Nat) (s : VM) : Option Outcome :=
  if prog.length > 1024 * 1024 then some (.fault .program_too_large s)
  else validate_program { s with program := prog }

/-! ## Definitions used to state the properties -/

/-- The value an instruction reads from register `r`: `execute_instruction` clears `x[0]`
before it reads any operand. -/
def VM.read (s : VM) (r : Nat) : Nat := (s.write 0 0).x r

/-- The byte at address `a` of the unified address space: the data region at `[0, D)`,
the stack region at `[D, D + S)`. -/
def VM.byte_at (s : VM) (a : Nat) : Option Nat :=
  if a < s.data.length then s.data.get? a else s.stack.get? (a - s.data.length)

/-- The faults an instruction can raise: *UnknownOpcode*, *UnknownFunct* (one exception
per instruction family) and *OutOfBounds*. -/
def Fault.is_instruction_fault : Fault → Bool
  | .unknown_opcode => true
  | .out_of_bounds => true
  | .unknown_branch => true
  | .unknown_load => true
  | .unknown_store => true
  | .unknown_alu_imm => true
  | .unknown_alu_imm32 => true
  | .unknown_alu_reg => true
  | .unknown_alu_reg32 => true
  | _ => false

/-- The state `execute_program` enters its loop with: `pc` set, halt flag cleared,
`x[2]` set to the top of the stack. -/
def entry_state (entry_point : Nat) (s : VM) : VM :=
  ({ s with pc := entry_point, halted := false } : VM).write 2
    (u64 (s.data.length + s.stack.length))

/-- The loop condition of `execute_program`. -/
def running (s : VM) : Bool := !s.halted && in_image s

/-- The state after exactly `k` instructions of the fetch loop begun in `s`: the loop
condition holds before each of them and each of them completes. -/
def run_steps : Nat → VM → Option VM
  | 0, s => some s
  | k + 1, s =>
    if running s then
      match fetch_execute s with
      | .ok s1 => run_steps k s1
      | _ => none
    else none

/-- The branch condition in the words of the instruction table: `BEQ`/`BNE` compare for
equality, `BLT`/`BGE` compare the registers read as signed, `BLTU`/`BGEU` as unsigned
64-bit integers (`funct3` = 0, 1, 4, 5, 6, 7). -/
def branch_condition (funct3 a b : Nat) : Bool :=
  if funct3 = 0 then a == b
  else if funct3 = 1 then a != b
  else if funct3 = 4 then decide (as_signed 64 a < as_signed 64 b)
  else if funct3 = 5 then decide (as_signed 64 a ≥ as_signed 64 b)
  else if funct3 = 6 then decide (a < b)
  else if funct3 = 7 then decide (a ≥ b)
  else false

/-- The branch offset `B` in the words of the decoder table: weight `-4096` for
`inst[31]` (bit 12 and the sign), bit 11 from `inst[7]`, bits 10:5 from `inst[30:25]`,
bits 4:1 from `inst[11:8]`, bit 0 clear. -/
def branch_offset (inst : Nat) : Int :=
  -4096 * ((inst / 2 ^ 31 % 2 : Nat) : Int) + 2048 * ((inst / 2 ^ 7 % 2 : Nat) : Int) +
    32 * ((inst / 2 ^ 25 % 64 : Nat) : Int) + 2 * ((inst / 2 ^ 8 % 16 : Nat) : Int)

/-- The address a control transfer about to execute in `s` moves `pc` to: `p + imm_J` for a
`JAL` fetched at `p = pc`, `(x[rs1] + imm_I) & ~1` for a `JALR`, `p + imm_B` for a branch
whose condition holds (each modulo `2^64`); `none` for every other instruction, which
continues at the next word. -/
def transfer_target (s : VM) : Option Nat :=
  match fetch s with
  | none => none
  | some inst =>
    let d := decode inst
    if d.opcode = 0x6f then some (u64 (s.pc + d.imm_j))
    else if d.opcode = 0x67 then some (u64 (s.read d.rs1 + d.imm_i) &&& (2 ^ 64 - 2))
    else if d.opcode = 0x63 ∧
        branch_condition d.funct3 (s.read d.rs1) (s.read d.rs2) = true then
      some (u64 (s.pc + d.imm_b))
    else none

/-- A check of the run begun in `s`, for at most `fuel` instructions: whether every `JAL`,
`JALR` and taken branch the run executes has its target at a multiple of 4 inside
`[0, len]`.  Without fuel left the answer is `false`. -/
def run_transfers_ok (len : Nat) : Nat → VM → Bool
  | 0, _ => false
  | fuel + 1, s =>
    if running s then
      (match transfer_target s with
        | some t => t % 4 == 0 && decide (t ≤ len)
        | none => true) &&
      (match fetch_execute s with
        | .ok s1 => run_transfers_ok len fuel s1
        | _ => true)
    else true

/-- A VM as the hosts set it up: a stack of `stack_size` bytes, `data` attached, and the
image `prog` installed. -/
def host_vm (stack_size : Nat) (data prog : List Nat) : VM :=
  { set_memory data (VM.construct stack_size) with program := prog }

/-- The image `ADDI x0, x0, 5` (word `0x00500013`). -/
def image_addi_x0 : List Nat := [0x13, 0x00, 0x50, 0x00]

/-- The image `JAL x0, 0` (word `0x0000006F`): a jump to itself. -/
def image_jal_self : List Nat := [0x6F, 0x00, 0x00, 0x00]

/-- The image `LD x1, 100(x0)` (word `0x06403083`). -/
def image_ld_100 : List Nat := [0x83, 0x30, 0x40, 0x06]

/-- The image `LUI x10, 0x12345; ADDI x10, x10, 0x678; EBREAK`
(words `0x12345537`, `0x67850513`, `0x00100073`). -/
def image_lui_addi_ebreak : List Nat :=
  [0x37, 0x55, 0x34, 0x12, 0x13, 0x05, 0x85, 0x67, 0x73, 0x00, 0x10, 0x00]

/-- The image `LD x5, 64(x0)` (word `0x04003283`) followed by the word `0xFFFFFFFF`,
whose opcode field `0x7f` is not an opcode of the VM. -/
def image_ld_then_invalid : List Nat := [0x83, 0x32, 0x00, 0x04, 0xFF, 0xFF, 0xFF, 0xFF]

/-- The image `JAL x0, 6; EBREAK` (words `0x0060006F`, `0x00100073`). -/
def image_jal_6 : List Nat := [0x6F, 0x00, 0x60, 0x00, 0x73, 0x00, 0x10, 0x00]

/-- The image `JAL x0, 16` (word `0x0100006F`). -/
def image_jal_16 : List Nat := [0x6F, 0x00, 0x00, 0x01]

/-- The image `ADDI x1, x0, 8; JALR x0, 0(x1); EBREAK`
(words `0x00800093`, `0x00008067`, `0x00100073`). -/
def image_addi_jalr_ebreak : List Nat :=
  [0x93, 0x00, 0x80, 0x00, 0x67, 0x80, 0x00, 0x00, 0x73, 0x00, 0x10, 0x00]

/-- The image `BEQ x0, x0, 6; EBREAK` (words `0x00000363`, `0x00100073`). -/
def image_beq_6 : List Nat := [0x63, 0x03, 0x00, 0x00, 0x73, 0x00, 0x10, 0x00]

/-- The image `JALR x0, 6(x0); EBREAK` (words `0x00600067`, `0x00100073`). -/
def image_jalr_6 : List Nat := [0x67, 0x00, 0x60, 0x00, 0x73, 0x00, 0x10, 0x00]

/-- The image `BEQ x0, x0, 8; ADDI x0, x0, 5; EBREAK`
(words `0x00000463`, `0x00500013`, `0x00100073`). -/
def image_beq_skip : List Nat :=
  [0x63, 0x04, 0x00, 0x00, 0x13, 0x00, 0x50, 0x00, 0x73, 0x00, 0x10, 0x00]

/-- The image `ADDI x1, x0, -1; JALR x0, 0(x1)` (words `0xFFF00093`, `0x00008067`). -/
def image_jalr_top : List Nat := [0x93, 0x00, 0xF0, 0xFF, 0x67, 0x80, 0x00, 0x00]

/-- A VM with a one-byte data region and a 64-byte stack whose registers `x5` and `x6`
hold `a` and `b`. -/
def vm_x5_x6 (a b : Nat) : VM := ((host_vm 64 [0] []).write 5 a).write 6 b

/-- The image of the two `OP` words `0x806283B3` (`funct7 = 0x40`, `funct3 = 0`) and
`0x426283B3` (`funct7 = 0x21`, `funct3 = 0`), both with `rd = 7`, `rs1 = 5`, `rs2 = 6`. -/
def image_unknown_funct7 : List Nat := [0xB3, 0x83, 0x62, 0x80, 0xB3, 0x83, 0x62, 0x42]

/-- The image `ADDI x1, x0, 1; SB x1, 0(x0)` (words `0x00100093`, `0x00100023`). -/
def image_addi_sb : List Nat := [0x93, 0x00, 0x10, 0x00, 0x23, 0x00, 0x10, 0x00]

/-- The image of the single word `0xFFFFFFFF`, whose opcode field is `0x7f`. -/
def image_invalid_word : List Nat := [0xFF, 0xFF, 0xFF, 0xFF]

/-- The image `ADDI x0, x0, 5; ADDI x1, x0, 0` (words `0x00500013`, `0x00000093`). -/
def image_addi_x0_then_read : List Nat := [0x13, 0x00, 0x50, 0x00, 0x93, 0x00, 0x00, 0x00]

/-- The image `ADDI x0, x0, 5; BEQ x0, x0, 8` (words `0x00500013`, `0x00000463`). -/
def image_addi_x0_beq : List Nat := [0x13, 0x00, 0x50, 0x00, 0x63, 0x04, 0x00, 0x00]

/-! ## Properties -/

/-- C1 (the code departs from the claim): after `ADDI x0, x0, 5` has run as the last
instruction of an image, `execute_program` returns normally and `get_register(0)` yields
5, not 0: `x[0]` is cleared when an instruction starts, not when it ends. -/
theorem x0_nonzero_after_addi_x0 :
    ∃ s1 s2, load_program image_addi_x0 (set_memory [0] (VM.construct 4096)) = some (.ok s1) ∧
      execute_program 2 0 100000 s1 = some (.ok s2) ∧ s2.pc = 4 ∧ s2.halted = false ∧
      get_register 0 s2 = .ok 5 :=
  ⟨_, _, rfl, rfl, rfl, rfl, rfl⟩

/-- C2 (the code departs from the claim): with `D = 16` and `S = 64`, `mem_ref` accepts
the 8-byte access at address `2^64 - 1`, although `a + w > D + S`; the sum `addr + sizeof(T)`
wraps around.  The load `LD` at that address then reads outside the stack buffer. -/
theorem mem_ref_accepts_wrapped_address :
    mem_ref 8 (2 ^ 64 - 1) (host_vm 64 (List.replicate 16 0) []) =
        .ok ⟨false, 2 ^ 64 - 1 - 16⟩ ∧
      ¬ (2 ^ 64 - 1 + 8 ≤ 16 + 64) ∧
      mem_ref 1 (2 ^ 64 - 1) (host_vm 64 (List.replicate 16 0) []) =
        .ok ⟨false, 2 ^ 64 - 1 - 16⟩ ∧
      (∀ rd, exec_load 3 rd 0 (2 ^ 64 - 1) (host_vm 64 (List.replicate 16 0) []) =
        .undefined) :=
  ⟨rfl, by decide, rfl, fun _ => rfl⟩

/-! ### Sign extension in closed form -/

theorem sign_extend_32_eq (n : Nat) :
    sign_extend 32 n =
      if n % 2 ^ 32 < 2 ^ 31 then n % 2 ^ 32 else n % 2 ^ 32 + (2 ^ 64 - 2 ^ 32) := by
  unfold sign_extend as_signed of_signed
  split <;> omega

theorem sign_extend_16_eq (n : Nat) :
    sign_extend 16 n =
      if n % 2 ^ 16 < 2 ^ 15 then n % 2 ^ 16 else n % 2 ^ 16 + (2 ^ 64 - 2 ^ 16) := by
  unfold sign_extend as_signed of_signed
  split <;> omega

theorem sign_extend_8_eq (n : Nat) :
    sign_extend 8 n =
      if n % 2 ^ 8 < 2 ^ 7 then n % 2 ^ 8 else n % 2 ^ 8 + (2 ^ 64 - 2 ^ 8) := by
  unfold sign_extend as_signed of_signed
  split <;> omega


/-! ### Little-endian reads and writes -/

theorem write_le_length (w : Nat) : ∀ (mem : List Nat) (off v : Nat),
    (write_le mem off v w).length = mem.length := by
  induction w with
  | zero => intro mem off v; rfl
  | succ w ih => intro mem off v; simp [write_le, ih]

theorem write_le_get?_outside (w : Nat) : ∀ (mem : List Nat) (off v i : Nat),
    i < off ∨ off + w ≤ i → (write_le mem off v w).get? i = mem.get? i := by
  induction w with
  | zero => intro mem off v i _; rfl
  | succ w ih =>
    intro mem off v i h
    have hne : off ≠ i := by omega
    rw [write_le, ih _ _ _ _ (by omega)]
    simp [List.getElem?_set_ne hne]

theorem read_le_write_le (w : Nat) : ∀ (mem : List Nat) (off v : Nat),
    off + w ≤ mem.length → read_le (write_le mem off v w) off w = some (v % 256 ^ w) := by
  induction w with
  | zero => intro mem off v _; simp [read_le, write_le, Nat.mod_one]
  | succ w ih =>
    intro mem off v h
    have h1 : (write_le (mem.set off (v % 256)) (off + 1) (v / 256) w).get? off
        = some (v % 256) := by
      rw [write_le_get?_outside w _ _ _ _ (Or.inl (Nat.lt_succ_self off))]
      simp [List.getElem?_set_self (show off < mem.length by omega)]
    have h2 := ih (mem.set off (v % 256)) (off + 1) (v / 256) (by simp; omega)
    rw [read_le, write_le, h1, h2]
    rw [pow_succ', Nat.mod_mul]

theorem read_le_some_of_le (w : Nat) : ∀ (mem : List Nat) (off : Nat),
    off + w ≤ mem.length → ∃ v, read_le mem off w = some v := by
  induction w with
  | zero => intro mem off _; exact ⟨0, rfl⟩
  | succ w ih =>
    intro mem off h
    obtain ⟨r, hr⟩ := ih mem (off + 1) (by omega)
    have hlt : off < mem.length := by omega
    refine ⟨mem[off] + 256 * r, ?_⟩
    rw [read_le, hr]
    simp [List.getElem?_eq_getElem hlt]

theorem read_le_some_le (w : Nat) : ∀ (mem : List Nat) (off v : Nat),
    read_le mem off w = some v → w = 0 ∨ off + w ≤ mem.length := by
  induction w with
  | zero => intro mem off v _; exact Or.inl rfl
  | succ w ih =>
    intro mem off v h
    right
    rw [read_le] at h
    split at h
    · next b r hb hr =>
      have hlt : off < mem.length := by
        by_contra hge
        simp [List.getElem?_eq_none (Nat.le_of_not_lt hge)] at hb
      rcases ih mem (off + 1) r hr with h0 | h0 <;> omega
    · cases h

/-! ### Memory map -/

/-- Where `mem_ref` sends a legal access. -/
theorem mem_ref_legal (w addr : Nat) (s : VM)
    (hsize : s.data.length + s.stack.length < 2 ^ 64)
    (h1 : addr + w ≤ s.data.length + s.stack.length)
    (h2 : addr < s.data.length → addr + w ≤ s.data.length) :
    mem_ref w addr s =
      .ok ⟨decide (addr < s.data.length),
        if addr < s.data.length then addr else addr - s.data.length⟩ := by
  have e1 : u64 (addr + w) = addr + w := Nat.mod_eq_of_lt (by omega)
  have e2 : u64 (s.data.length + s.stack.length) = s.data.length + s.stack.length :=
    Nat.mod_eq_of_lt hsize
  unfold mem_ref
  rw [e1, e2]
  by_cases hd : addr < s.data.length
  · have := h2 hd
    simp [hd, Nat.not_lt.mpr h1, Nat.not_lt.mpr this]
  · simp [hd, Nat.not_lt.mpr h1]

/-- Without wrap-around of `addr + w`, `mem_ref` accepts exactly the legal accesses. -/
theorem mem_ref_ok_iff (w addr : Nat) (s : VM)
    (hsize : s.data.length + s.stack.length < 2 ^ 64) (haddr : addr + w < 2 ^ 64) :
    (∃ r, mem_ref w addr s = .ok r) ↔
      (addr + w ≤ s.data.length + s.stack.length ∧
        (addr < s.data.length → addr + w ≤ s.data.length)) := by
  constructor
  · rintro ⟨r, hr⟩
    have e1 : u64 (addr + w) = addr + w := Nat.mod_eq_of_lt haddr
    have e2 : u64 (s.data.length + s.stack.length) = s.data.length + s.stack.length :=
      Nat.mod_eq_of_lt hsize
    unfold mem_ref at hr
    rw [e1, e2] at hr
    split at hr
    · cases hr
    · split at hr
      · cases hr
      · constructor
        · omega
        · intro hd
          by_contra hc
          exact absurd (And.intro hd (Nat.lt_of_not_le hc)) (by assumption)
  · rintro ⟨h1, h2⟩
    exact ⟨_, mem_ref_legal w addr s hsize h1 h2⟩

/-- A store through a legal reference succeeds, changes only the addressed bytes, and a
load of the same width at the same address reads the stored value back. -/
theorem mem_store_load (w a v : Nat) (s : VM)
    (hsize : s.data.length + s.stack.length < 2 ^ 64)
    (h1 : a + w ≤ s.data.length + s.stack.length)
    (h2 : a < s.data.length → a + w ≤ s.data.length) :
    ∃ s', mem_store w a v s = .ok s' ∧ s'.x = s.x ∧ s'.pc = s.pc ∧ s'.program = s.program ∧
      s'.halted = s.halted ∧ s'.data.length = s.data.length ∧
      s'.stack.length = s.stack.length ∧
      (∀ i, i < a ∨ a + w ≤ i → s'.byte_at i = s.byte_at i) ∧
      mem_load w a s' = .ok (v % 256 ^ w) := by
  by_cases hd : a < s.data.length
  · have hle := h2 hd
    refine ⟨{ s with data := write_le s.data a v w }, ?_, rfl, rfl, rfl, rfl, ?_, rfl, ?_, ?_⟩
    · simp [mem_store, mem_ref_legal w a s hsize h1 h2, hd, hle]
    · simp [write_le_length]
    · intro i hi
      simp only [VM.byte_at, write_le_length]
      split
      · exact write_le_get?_outside w _ _ _ _ hi
      · rfl
    · have hl : mem_ref w a { s with data := write_le s.data a v w } = .ok ⟨true, a⟩ := by
        have := mem_ref_legal w a { s with data := write_le s.data a v w }
          (by simpa [write_le_length] using hsize) (by simpa [write_le_length] using h1)
          (by simpa [write_le_length] using h2)
        simpa [write_le_length, hd] using this
      simp [mem_load, hl, read_le_write_le w _ _ _ hle]
  · have hle : a - s.data.length + w ≤ s.stack.length := by omega
    refine ⟨{ s with stack := write_le s.stack (a - s.data.length) v w },
      ?_, rfl, rfl, rfl, rfl, rfl, ?_, ?_, ?_⟩
    · simp [mem_store, mem_ref_legal w a s hsize h1 h2, hd, hle]
    · simp [write_le_length]
    · intro i hi
      simp only [VM.byte_at]
      split
      · rfl
      · exact write_le_get?_outside w _ _ _ _ (by omega)
    · have hl : mem_ref w a { s with stack := write_le s.stack (a - s.data.length) v w }
          = .ok ⟨false, a - s.data.length⟩ := by
        have := mem_ref_legal w a { s with stack := write_le s.stack (a - s.data.length) v w }
          (by simpa [write_le_length] using hsize) (by simpa [write_le_length] using h1)
          (by simpa [write_le_length] using h2)
        simpa [write_le_length, hd] using this
      simp [mem_load, hl, read_le_write_le w _ _ _ hle]

/-- C3: store/load round trip.  For a legal address `a` (`a + w ≤ D + S`, not straddling
the seam) and a 64-bit value `v` in `x[rs2]`, the store of width `w = 2^k` bytes
(`SB`/`SH`/`SW`/`SD` for `k = 0, 1, 2, 3`) completes, leaves the registers and every
byte outside `[a, a + w)` unchanged, and a following load of the same width at `a`
writes to `rd`: for `LD` exactly `v`; for `LB`/`LH`/`LW` the low `8 * w` bits of `v`
sign-extended to 64 bits; for `LBU`/`LHU`/`LWU` the low `8 * w` bits of `v`. -/
theorem store_load_round_trip (s : VM) (k rd rs1 rs2 imm a v : Nat)
    (hk : k < 4)
    (hsize : s.data.length + s.stack.length < 2 ^ 64)
    (h1 : a + 2 ^ k ≤ s.data.length + s.stack.length)
    (h2 : a < s.data.length → a + 2 ^ k ≤ s.data.length)
    (ha : u64 (s.x rs1 + imm) = a) (hv : s.x rs2 = v) (hv64 : v < 2 ^ 64) :
    ∃ s', exec_store k rs1 rs2 imm s = .ok s' ∧ s'.x = s.x ∧ s'.pc = s.pc ∧
      s'.data.length = s.data.length ∧ s'.stack.length = s.stack.length ∧
      (∀ i, i < a ∨ a + 2 ^ k ≤ i → s'.byte_at i = s.byte_at i) ∧
      (k = 3 → exec_load 3 rd rs1 imm s' = .ok (s'.write rd v)) ∧
      (k < 3 → exec_load k rd rs1 imm s' = .ok (s'.write rd
        (if v % 2 ^ (8 * 2 ^ k) < 2 ^ (8 * 2 ^ k - 1) then v % 2 ^ (8 * 2 ^ k)
         else v % 2 ^ (8 * 2 ^ k) + (2 ^ 64 - 2 ^ (8 * 2 ^ k))))) ∧
      (k < 3 → exec_load (k + 4) rd rs1 imm s' = .ok (s'.write rd (v % 2 ^ (8 * 2 ^ k)))) := by
  subst hv
  interval_cases k
  · obtain ⟨s', hs, hx, hpc, _, _, hdl, hsl, hfr, hld⟩ :=
      mem_store_load 1 a (u8 (s.x rs2)) s hsize h1 h2
    have haddr : u64 (s'.x rs1 + imm) = a := by rw [hx]; exact ha
    refine ⟨s', ?_, hx, hpc, hdl, hsl, hfr, ?_, ?_, ?_⟩
    · simp [exec_store, ha, hs]
    · intro h; cases h
    · intro _
      simp [exec_load, haddr, hld, sign_extend_8_eq, u8]
    · intro _
      simp [exec_load, haddr, hld, u8]
  · obtain ⟨s', hs, hx, hpc, _, _, hdl, hsl, hfr, hld⟩ :=
      mem_store_load 2 a (u16 (s.x rs2)) s hsize h1 h2
    have haddr : u64 (s'.x rs1 + imm) = a := by rw [hx]; exact ha
    refine ⟨s', ?_, hx, hpc, hdl, hsl, hfr, ?_, ?_, ?_⟩
    · simp [exec_store, ha, hs]
    · intro h; cases h
    · intro _
      simp [exec_load, haddr, hld, sign_extend_16_eq, u16]
    · intro _
      simp [exec_load, haddr, hld, u16]
  · obtain ⟨s', hs, hx, hpc, _, _, hdl, hsl, hfr, hld⟩ :=
      mem_store_load 4 a (u32 (s.x rs2)) s hsize h1 h2
    have haddr : u64 (s'.x rs1 + imm) = a := by rw [hx]; exact ha
    refine ⟨s', ?_, hx, hpc, hdl, hsl, hfr, ?_, ?_, ?_⟩
    · simp [exec_store, ha, hs]
    · intro h; cases h
    · intro _
      simp [exec_load, haddr, hld, sign_extend_32_eq, u32]
    · intro _
      simp [exec_load, haddr, hld, u32]
  · obtain ⟨s', hs, hx, hpc, _, _, hdl, hsl, hfr, hld⟩ :=
      mem_store_load 8 a (u64 (s.x rs2)) s hsize h1 h2
    have haddr : u64 (s'.x rs1 + imm) = a := by rw [hx]; exact ha
    refine ⟨s', ?_, hx, hpc, hdl, hsl, hfr, ?_, ?_, ?_⟩
    · simp [exec_store, ha, hs]
    · intro _
      have hval : u64 (s.x rs2) % 256 ^ 8 = s.x rs2 := by
        unfold u64
        omega
      simp only [exec_load, haddr, hld, hval, id]
    · intro h; exact absurd h (by decide)
    · intro h; exact absurd h (by decide)

/-- C3 at a concrete state: `SD x5, 4(x6)` with `x5 = 0xDEADBEEFCAFEBABE`, `x6 = 20`
(address 24, in the stack region of a VM with `D = 16`, `S = 64`), then `LD x7, 4(x6)`. -/
theorem store_load_round_trip_witness :
    ∃ s', exec_store 3 6 5 4
        (((host_vm 64 (List.replicate 16 0) []).write 5 0xDEADBEEFCAFEBABE).write 6 20) = .ok s' ∧
      exec_load 3 7 6 4 s' = .ok (s'.write 7 0xDEADBEEFCAFEBABE) :=
  let ⟨s', hst, _, _, _, _, _, hld, _, _⟩ :=
    store_load_round_trip
      (((host_vm 64 (List.replicate 16 0) []).write 5 0xDEADBEEFCAFEBABE).write 6 20)
      3 7 6 5 4 24 0xDEADBEEFCAFEBABE (by decide) (by decide) (by decide) (by decide)
      (by decide) (by decide) (by decide)
  ⟨s', hst, hld rfl⟩

/-! ### What one instruction can change -/

theorem exec_alu_reg_ok {funct3 funct7 rd rs1 rs2 : Nat} {s s' : VM}
    (h : exec_alu_reg funct3 funct7 rd rs1 rs2 s = .ok s') : ∃ v, s' = s.write rd v := by
  unfold exec_alu_reg at h
  dsimp only at h
  split at h <;> (try split at h) <;> (try split at h) <;>
    first
    | (cases h; exact ⟨_, rfl⟩)
    | cases h

theorem exec_alu_reg_fault {funct3 funct7 rd rs1 rs2 : Nat} {s s' : VM} {e : Fault}
    (h : exec_alu_reg funct3 funct7 rd rs1 rs2 s = .fault e s') :
    s' = s ∧ e = .unknown_alu_reg := by
  unfold exec_alu_reg at h
  dsimp only at h
  split at h <;> (try split at h) <;> (try split at h) <;>
    first
    | (cases h; exact ⟨rfl, rfl⟩)
    | cases h

theorem exec_alu_reg32_ok {funct3 funct7 rd rs1 rs2 : Nat} {s s' : VM}
    (h : exec_alu_reg32 funct3 funct7 rd rs1 rs2 s = .ok s') : ∃ v, s' = s.write rd v := by
  unfold exec_alu_reg32 at h
  dsimp only at h
  split at h <;> (try split at h) <;> (try split at h) <;>
    first
    | (cases h; exact ⟨_, rfl⟩)
    | cases h

theorem exec_alu_reg32_fault {funct3 funct7 rd rs1 rs2 : Nat} {s s' : VM} {e : Fault}
    (h : exec_alu_reg32 funct3 funct7 rd rs1 rs2 s = .fault e s') :
    s' = s ∧ e = .unknown_alu_reg32 := by
  unfold exec_alu_reg32 at h
  dsimp only at h
  split at h <;> (try split at h) <;> (try split at h) <;>
    first
    | (cases h; exact ⟨rfl, rfl⟩)
    | cases h

theorem exec_alu_imm_ok {funct3 funct7 rd rs1 imm shamt : Nat} {s s' : VM}
    (h : exec_alu_imm funct3 funct7 rd rs1 imm shamt s = .ok s') : ∃ v, s' = s.write rd v := by
  unfold exec_alu_imm at h
  split at h <;> (try split at h) <;>
    first
    | (cases h; exact ⟨_, rfl⟩)
    | cases h

theorem exec_alu_imm_fault {funct3 funct7 rd rs1 imm shamt : Nat} {s s' : VM} {e : Fault}
    (h : exec_alu_imm funct3 funct7 rd rs1 imm shamt s = .fault e s') :
    s' = s ∧ e = .unknown_alu_imm := by
  unfold exec_alu_imm at h
  split at h <;> (try split at h) <;>
    first
    | (cases h; exact ⟨rfl, rfl⟩)
    | cases h

theorem exec_alu_imm32_ok {funct3 funct7 rd rs1 imm shamt : Nat} {s s' : VM}
    (h : exec_alu_imm32 funct3 funct7 rd rs1 imm shamt s = .ok s') :
    ∃ v, s' = s.write rd v := by
  unfold exec_alu_imm32 at h
  dsimp only at h
  split at h <;> (try split at h) <;>
    first
    | (cases h; exact ⟨_, rfl⟩)
    | cases h

theorem exec_alu_imm32_fault {funct3 funct7 rd rs1 imm shamt : Nat} {s s' : VM} {e : Fault}
    (h : exec_alu_imm32 funct3 funct7 rd rs1 imm shamt s = .fault e s') :
    s' = s ∧ e = .unknown_alu_imm32 := by
  unfold exec_alu_imm32 at h
  dsimp only at h
  split at h <;> (try split at h) <;>
    first
    | (cases h; exact ⟨rfl, rfl⟩)
    | cases h

theorem mem_ref_fault {w addr : Nat} {s : VM} {e : Fault}
    (h : mem_ref w addr s = .fault e) : e = .out_of_bounds := by
  unfold mem_ref at h
  split at h <;> (try split at h) <;> (try split at h) <;>
    first
    | (cases h; rfl)
    | cases h

theorem mem_load_fault {w addr : Nat} {s : VM} {e : Fault}
    (h : mem_load w addr s = .fault e) : e = .out_of_bounds := by
  unfold mem_load at h
  split at h
  · split at h <;> cases h
  · next e' he =>
    cases h
    exact mem_ref_fault he
  · cases h

theorem mem_store_fault {w addr v : Nat} {s s' : VM} {e : Fault}
    (h : mem_store w addr v s = .fault e s') : s' = s ∧ e = .out_of_bounds := by
  unfold mem_store at h
  split at h
  · split at h <;> split at h <;> cases h
  · next e' he =>
    cases h
    exact ⟨rfl, mem_ref_fault he⟩
  · cases h

theorem mem_store_ok {w addr v : Nat} {s s' : VM}
    (h : mem_store w addr v s = .ok s') :
    s'.x = s.x ∧ s'.pc = s.pc ∧ s'.program = s.program ∧ s'.halted = s.halted ∧
      s'.data.length = s.data.length ∧ s'.stack.length = s.stack.length := by
  unfold mem_store at h
  split at h
  · split at h <;> split at h <;>
      first
      | (cases h; simp [write_le_length])
      | cases h
  · cases h
  · cases h

theorem exec_load_ok {funct3 rd rs1 imm : Nat} {s s' : VM}
    (h : exec_load funct3 rd rs1 imm s = .ok s') : ∃ v, s' = s.write rd v := by
  unfold exec_load at h
  dsimp only at h
  split at h <;> (try split at h) <;>
    first
    | (cases h; exact ⟨_, rfl⟩)
    | cases h

theorem exec_load_fault {funct3 rd rs1 imm : Nat} {s s' : VM} {e : Fault}
    (h : exec_load funct3 rd rs1 imm s = .fault e s') :
    s' = s ∧ (e = .out_of_bounds ∨ e = .unknown_load) := by
  unfold exec_load at h
  dsimp only at h
  split at h <;> (try split at h) <;>
    first
    | (next he => cases h; exact ⟨rfl, Or.inl (mem_load_fault he)⟩)
    | (cases h; exact ⟨rfl, Or.inr rfl⟩)
    | cases h

theorem exec_store_ok {funct3 rs1 rs2 imm : Nat} {s s' : VM}
    (h : exec_store funct3 rs1 rs2 imm s = .ok s') :
    s'.x = s.x ∧ s'.pc = s.pc ∧ s'.program = s.program ∧ s'.halted = s.halted ∧
      s'.data.length = s.data.length ∧ s'.stack.length = s.stack.length := by
  unfold exec_store at h
  dsimp only at h
  split at h <;>
    first
    | exact mem_store_ok h
    | cases h

theorem exec_store_fault {funct3 rs1 rs2 imm : Nat} {s s' : VM} {e : Fault}
    (h : exec_store funct3 rs1 rs2 imm s = .fault e s') :
    s' = s ∧ (e = .out_of_bounds ∨ e = .unknown_store) := by
  unfold exec_store at h
  dsimp only at h
  split at h <;>
    first
    | exact ⟨(mem_store_fault h).1, Or.inl (mem_store_fault h).2⟩
    | (cases h; exact ⟨rfl, Or.inr rfl⟩)

theorem ok_ite_cases {c : Bool} {t s s' : VM}
    (h : (if c = true then Outcome.ok t else Outcome.ok s) = .ok s') : s' = s ∨ s' = t := by
  cases c
  · exact Or.inl (Outcome.ok.inj h).symm
  · exact Or.inr (Outcome.ok.inj h).symm

theorem exec_branch_ok {funct3 rs1 rs2 imm : Nat} {s s' : VM}
    (h : exec_branch funct3 rs1 rs2 imm s = .ok s') :
    s' = s ∨ s' = { s with pc := u64 (s.pc + u64 (imm + (2 ^ 64 - 4))) } := by
  unfold exec_branch at h
  dsimp only at h
  split at h <;>
    first
    | exact ok_ite_cases h
    | cases h

theorem exec_branch_fault {funct3 rs1 rs2 imm : Nat} {s s' : VM} {e : Fault}
    (h : exec_branch funct3 rs1 rs2 imm s = .fault e s') :
    s' = s ∧ e = .unknown_branch := by
  unfold exec_branch at h
  dsimp only at h
  split at h <;> (try split at h) <;>
    first
    | (cases h; exact ⟨rfl, rfl⟩)
    | cases h

/-- An instruction that throws leaves the VM as it found it, apart from the clearing of
`x[0]` on entry. -/
theorem execute_instruction_fault {inst : Nat} {s s' : VM} {e : Fault}
    (h : execute_instruction inst s = .fault e s') :
    s' = s.write 0 0 ∧ e.is_instruction_fault = true := by
  unfold execute_instruction at h
  dsimp only at h
  split at h
  · cases h
  · cases h
  · cases h
  · cases h
  · obtain ⟨h1, h2⟩ := exec_branch_fault h
    subst h1 h2; exact ⟨rfl, rfl⟩
  · obtain ⟨h1, h2 | h2⟩ := exec_load_fault h <;>
    · subst h1 h2; exact ⟨rfl, rfl⟩
  · obtain ⟨h1, h2 | h2⟩ := exec_store_fault h <;>
    · subst h1 h2; exact ⟨rfl, rfl⟩
  · obtain ⟨h1, h2⟩ := exec_alu_imm_fault h
    subst h1 h2; exact ⟨rfl, rfl⟩
  · obtain ⟨h1, h2⟩ := exec_alu_imm32_fault h
    subst h1 h2; exact ⟨rfl, rfl⟩
  · obtain ⟨h1, h2⟩ := exec_alu_reg_fault h
    subst h1 h2; exact ⟨rfl, rfl⟩
  · obtain ⟨h1, h2⟩ := exec_alu_reg32_fault h
    subst h1 h2; exact ⟨rfl, rfl⟩
  · cases h
  · split at h <;> cases h
  · cases h; exact ⟨rfl, rfl⟩

/-- An instruction that completes keeps the image and the sizes of both regions. -/
theorem execute_instruction_ok_shape {inst : Nat} {s s' : VM}
    (h : execute_instruction inst s = .ok s') :
    s'.program = s.program ∧ s'.data.length = s.data.length ∧
      s'.stack.length = s.stack.length := by
  unfold execute_instruction at h
  dsimp only at h
  split at h
  · cases h; exact ⟨rfl, rfl, rfl⟩
  · cases h; exact ⟨rfl, rfl, rfl⟩
  · have h1 := (Outcome.ok.inj h).symm
    subst h1; exact ⟨rfl, rfl, rfl⟩
  · have h1 := (Outcome.ok.inj h).symm
    subst h1; exact ⟨rfl, rfl, rfl⟩
  · rcases exec_branch_ok h with h1 | h1 <;>
    · subst h1; exact ⟨rfl, rfl, rfl⟩
  · obtain ⟨v, h1⟩ := exec_load_ok h
    subst h1; exact ⟨rfl, rfl, rfl⟩
  · obtain ⟨_, _, h3, _, h5, h6⟩ := exec_store_ok h
    exact ⟨h3, h5, h6⟩
  · obtain ⟨v, h1⟩ := exec_alu_imm_ok h
    subst h1; exact ⟨rfl, rfl, rfl⟩
  · obtain ⟨v, h1⟩ := exec_alu_imm32_ok h
    subst h1; exact ⟨rfl, rfl, rfl⟩
  · obtain ⟨v, h1⟩ := exec_alu_reg_ok h
    subst h1; exact ⟨rfl, rfl, rfl⟩
  · obtain ⟨v, h1⟩ := exec_alu_reg32_ok h
    subst h1; exact ⟨rfl, rfl, rfl⟩
  · cases h; exact ⟨rfl, rfl, rfl⟩
  · split at h <;> (cases h; exact ⟨rfl, rfl, rfl⟩)
  · cases h

/-- How an instruction that completes moves `pc` (already advanced past the word): only
`JAL`, `JALR` and a taken branch change it. -/
theorem execute_instruction_ok_pc {inst : Nat} {s s' : VM}
    (h : execute_instruction inst s = .ok s') :
    ((decode inst).opcode ≠ 0x6f → (decode inst).opcode ≠ 0x67 →
        (decode inst).opcode ≠ 0x63 → s'.pc = s.pc) ∧
      ((decode inst).opcode = 0x6f →
        s'.pc = u64 (s.pc + u64 ((decode inst).imm_j + (2 ^ 64 - 4)))) ∧
      ((decode inst).opcode = 0x63 →
        s'.pc = s.pc ∨ s'.pc = u64 (s.pc + u64 ((decode inst).imm_b + (2 ^ 64 - 4)))) := by
  unfold execute_instruction at h
  dsimp only at h
  split at h
  · next hop => cases h; simp [hop, VM.write]
  · next hop => cases h; simp [hop, VM.write]
  · next hop =>
    have h1 := (Outcome.ok.inj h).symm
    subst h1; simp [hop, VM.write]
  · next hop =>
    have h1 := (Outcome.ok.inj h).symm
    subst h1; simp [hop]
  · next hop =>
    rcases exec_branch_ok h with h1 | h1 <;>
    · subst h1; simp [hop, VM.write]
  · next hop =>
    obtain ⟨v, h1⟩ := exec_load_ok h
    subst h1; simp [hop, VM.write]
  · next hop =>
    obtain ⟨_, h2, _⟩ := exec_store_ok h
    simp [hop, h2, VM.write]
  · next hop =>
    obtain ⟨v, h1⟩ := exec_alu_imm_ok h
    subst h1; simp [hop, VM.write]
  · next hop =>
    obtain ⟨v, h1⟩ := exec_alu_imm32_ok h
    subst h1; simp [hop, VM.write]
  · next hop =>
    obtain ⟨v, h1⟩ := exec_alu_reg_ok h
    subst h1; simp [hop, VM.write]
  · next hop =>
    obtain ⟨v, h1⟩ := exec_alu_reg32_ok h
    subst h1; simp [hop, VM.write]
  · next hop => cases h; simp [hop, VM.write]
  · next hop => split at h <;> (cases h; simp [hop, VM.write])
  · cases h

/-! ### The fetch loop of `execute_program` -/

theorem fetch_in_bounds {s : VM} {inst : Nat} (h : fetch s = some inst) :
    s.pc + 4 ≤ s.program.length := by
  rcases read_le_some_le 4 _ _ _ h with h0 | h0
  · cases h0
  · exact h0

/-- A faulting instruction of the loop: the state left behind is the state before the
fetch with `pc` advanced and `x[0]` cleared. -/
theorem fetch_execute_fault {s s' : VM} {e : Fault} (h : fetch_execute s = .fault e s') :
    s' = ({ s with pc := u64 (s.pc + 4) } : VM).write 0 0 ∧ e.is_instruction_fault = true ∧
      s.pc + 4 ≤ s.program.length := by
  unfold fetch_execute at h
  split at h
  · next inst hf =>
    obtain ⟨h1, h2⟩ := execute_instruction_fault h
    exact ⟨h1, h2, fetch_in_bounds hf⟩
  · cases h

theorem run_steps_succ_of_ok {s s1 : VM} (k : Nat) (hr : running s = true)
    (hf : fetch_execute s = .ok s1) : run_steps (k + 1) s = run_steps k s1 := by
  simp [run_steps, hr, hf]

/-- The loop of `execute_program` in terms of `run_steps`: with a budget `n` below
`2^64 - 1` and enough fuel, the loop returns, after `k ≤ n - count` completed
instructions, in one of three ways. -/
theorem execute_loop_spec (n : Nat) (hn : n < 2 ^ 64 - 1) :
    ∀ (fuel count : Nat) (s : VM), count ≤ n → n - count + 1 ≤ fuel →
      ∃ out k sk, execute_loop n fuel count s = some out ∧ k ≤ n - count ∧
        run_steps k s = some sk ∧
        ((running sk = false ∧ out = .ok sk) ∨
          (running sk = true ∧ k < n - count ∧ out = fetch_execute sk ∧ ∀ t, out ≠ .ok t) ∨
          (running sk = true ∧ k = n - count ∧ out = .fault .max_instructions sk)) := by
  intro fuel
  induction fuel with
  | zero => intro count s _ hf; omega
  | succ fuel ih =>
    intro count s hc hf
    by_cases hr : running s = true
    · have hr' : (!s.halted && in_image s) = true := hr
      have hcount : u64 (count + 1) = count + 1 := Nat.mod_eq_of_lt (by omega)
      by_cases hb : count + 1 > n
      · refine ⟨.fault .max_instructions s, 0, s, ?_, Nat.zero_le _, rfl, ?_⟩
        · simp [execute_loop, hr', hcount, hb]
        · exact Or.inr (Or.inr ⟨hr, by omega, rfl⟩)
      · cases hfe : fetch_execute s with
        | ok s1 =>
          obtain ⟨out, k, sk, h1, h2, h3, h4⟩ := ih (count + 1) s1 (by omega) (by omega)
          refine ⟨out, k + 1, sk, ?_, by omega, ?_, ?_⟩
          · simp [execute_loop, hr', hcount, hb, hfe, h1]
          · rw [run_steps_succ_of_ok k hr hfe]; exact h3
          · rcases h4 with h4 | ⟨h4, h5, h6⟩ | ⟨h4, h5, h6⟩
            · exact Or.inl h4
            · exact Or.inr (Or.inl ⟨h4, by omega, h6⟩)
            · exact Or.inr (Or.inr ⟨h4, by omega, h6⟩)
        | fault e s1 =>
          refine ⟨.fault e s1, 0, s, ?_, Nat.zero_le _, rfl, ?_⟩
          · simp [execute_loop, hr', hcount, hb, hfe]
          · refine Or.inr (Or.inl ⟨hr, by omega, hfe.symm, ?_⟩)
            intro t ht; cases ht
        | undefined =>
          refine ⟨.undefined, 0, s, ?_, Nat.zero_le _, rfl, ?_⟩
          · simp [execute_loop, hr', hcount, hb, hfe]
          · refine Or.inr (Or.inl ⟨hr, by omega, hfe.symm, ?_⟩)
            intro t ht; cases ht
    · have hr' : (!s.halted && in_image s) = false := by
        simpa [running] using hr
      refine ⟨.ok s, 0, s, ?_, Nat.zero_le _, rfl, ?_⟩
      · simp [execute_loop, hr']
      · exact Or.inl ⟨by simpa using hr, rfl⟩

/-- Once the loop has stopped after `k` instructions, no longer run exists. -/
theorem run_steps_stuck : ∀ (k : Nat) (s sk : VM), run_steps k s = some sk →
    (running sk = false ∨ ∀ t, fetch_execute sk ≠ .ok t) →
    ∀ m, k < m → run_steps m s = none := by
  intro k
  induction k with
  | zero =>
    intro s sk h hstop m hm
    cases h
    obtain ⟨m', rfl⟩ : ∃ m', m = m' + 1 := ⟨m - 1, by omega⟩
    unfold run_steps
    rcases hstop with hstop | hstop
    · simp [hstop]
    · split
      · split
        · next t ht => exact absurd ht (hstop t)
        · rfl
      · rfl
  | succ k ih =>
    intro s sk h hstop m hm
    obtain ⟨m', rfl⟩ : ∃ m', m = m' + 1 := ⟨m - 1, by omega⟩
    unfold run_steps at h ⊢
    split at h
    · next hr =>
      split at h
      · next s1 hf =>
        simp only [hr, hf, if_true]
        exact ih s1 sk h hstop m' (by omega)
      · cases h
    · cases h

theorem execute_program_eq_loop (vm : VM) (fuel entry n : Nat) (hdata : vm.data ≠ []) :
    execute_program fuel entry n vm = execute_loop n fuel 0 (entry_state entry vm) := by
  cases hd : vm.data with
  | nil => exact absurd hd hdata
  | cons b bs => simp [execute_program, entry_state, hd]

/-- C4 (as amended): with a data region attached and a budget `n < 2^64 - 1`,
`execute_program` returns (any fuel of at least `n + 1` is enough) after `k ≤ n`
completed instructions, in one of three ways: normally, when the loop condition fails
after the `k`-th instruction; with the fault (or undefined behaviour) of instruction
`k + 1 ≤ n`; or with *InstructionBudgetExceeded* when `k = n` and the loop condition still
holds.  It fails with *InstructionBudgetExceeded* exactly when `n` instructions complete
and after them the VM is not halted and `pc + 3 < program.size()` holds as the code
evaluates it (in 64-bit arithmetic). -/
theorem instruction_budget (vm : VM) (fuel entry n : Nat)
    (hdata : vm.data ≠ []) (hn : n < 2 ^ 64 - 1) (hfuel : n + 1 ≤ fuel) :
    ∃ out k sk, execute_program fuel entry n vm = some out ∧ k ≤ n ∧
      run_steps k (entry_state entry vm) = some sk ∧
      ((running sk = false ∧ out = .ok sk) ∨
        (running sk = true ∧ k < n ∧ out = fetch_execute sk ∧ ∀ t, out ≠ .ok t) ∨
        (running sk = true ∧ k = n ∧ out = .fault .max_instructions sk)) ∧
      ((∃ t, out = .fault .max_instructions t) ↔
        ∃ sn, run_steps n (entry_state entry vm) = some sn ∧ sn.halted = false ∧
          u64 (sn.pc + 3) < sn.program.length) := by
  obtain ⟨out, k, sk, h1, h2, h3, h4⟩ :=
    execute_loop_spec n hn fuel 0 (entry_state entry vm) (Nat.zero_le _) (by omega)
  have hrun : ∀ t : VM, running t = true ↔
      (t.halted = false ∧ u64 (t.pc + 3) < t.program.length) := by
    intro t
    simp [running, in_image]
  refine ⟨out, k, sk, ?_, by omega, h3, ?_, ?_⟩
  · rw [execute_program_eq_loop vm fuel entry n hdata]; exact h1
  · rcases h4 with h4 | ⟨h4, h5, h6⟩ | ⟨h4, h5, h6⟩
    · exact Or.inl h4
    · exact Or.inr (Or.inl ⟨h4, by omega, h6⟩)
    · exact Or.inr (Or.inr ⟨h4, by omega, h6⟩)
  · constructor
    · rintro ⟨t, ht⟩
      rcases h4 with ⟨_, h5⟩ | ⟨_, _, h6, _⟩ | ⟨h4, h5, h6⟩
      · rw [h5] at ht; cases ht
      · rw [ht] at h6
        have := (fetch_execute_fault h6.symm).2.1
        cases this
      · have hk : k = n := by omega
        subst hk
        exact ⟨sk, h3, (hrun sk).mp h4⟩
    · rintro ⟨sn, hsn, hh, hp⟩
      have hrsn : running sn = true := (hrun sn).mpr ⟨hh, hp⟩
      rcases h4 with ⟨h4, h5⟩ | ⟨h4, h5, h6, h7⟩ | ⟨h4, h5, h6⟩
      · by_cases hk : k = n
        · subst hk
          rw [h3] at hsn; cases hsn
          rw [hrsn] at h4; cases h4
        · have := run_steps_stuck k _ sk h3 (Or.inl h4) n (by omega)
          rw [this] at hsn; cases hsn
      · have hstuck : ∀ t, fetch_execute sk ≠ .ok t := fun t ht => h7 t (h6.trans ht)
        have := run_steps_stuck k _ sk h3 (Or.inr hstuck) n (by omega)
        rw [this] at hsn; cases hsn
      · exact ⟨sk, h6⟩

/-- C4 at a concrete run: the endless loop `JAL x0, 0` with budget 3 fails with
*InstructionBudgetExceeded*. -/
theorem instruction_budget_witness :
    ∃ t, execute_program 4 0 3 (host_vm 64 [0] image_jal_self) =
      some (.fault .max_instructions t) :=
  let ⟨_, _, _, h1, _, _, _, hiff⟩ :=
    instruction_budget (host_vm 64 [0] image_jal_self) 4 0 3 (by decide) (by decide)
      (by decide)
  let ⟨t, ht⟩ := hiff.mpr ⟨_, rfl, rfl, by decide⟩
  ⟨t, ht ▸ h1⟩

/-- C4 (the claim as stated fails): without a data region the endless loop `JAL x0, 0`
run with budget 0 does not fail with *InstructionBudgetExceeded*, although no instruction
has been executed, the VM is not halted and `pc` addresses a whole word of the image: the
call fails with *NoDataMemory*.  And with data attached and entry point `2^64 - 1` it fails
with *InstructionBudgetExceeded* under budget 0 although `pc` addresses no word of the
image (`pc + 3` wraps around). -/
theorem budget_fault_preempted_without_data :
    (∃ t, execute_program 1 0 0 (host_vm 64 [] image_jal_self) =
        some (.fault .no_memory_context t) ∧
      t.halted = false ∧ t.pc + 4 ≤ t.program.length) ∧
    (∃ t, execute_program 1 (2 ^ 64 - 1) 0 (host_vm 64 [0] image_jal_self) =
        some (.fault .max_instructions t) ∧
      ¬ (t.pc + 4 ≤ t.program.length)) :=
  ⟨⟨_, rfl, rfl, by decide⟩, ⟨_, rfl, by decide⟩⟩

/-- An instruction fault that leaves the loop was raised by the instruction fetched in a
state the run had reached. -/
theorem execute_loop_fault (n : Nat) : ∀ (fuel count : Nat) (s s' : VM) (e : Fault),
    execute_loop n fuel count s = some (.fault e s') → e.is_instruction_fault = true →
    ∃ k sk, run_steps k s = some sk ∧ running sk = true ∧
      fetch_execute sk = .fault e s' := by
  intro fuel
  induction fuel with
  | zero => intro count s s' e h _; cases h
  | succ fuel ih =>
    intro count s s' e h he
    unfold execute_loop at h
    split at h
    · next hr =>
      have hr' : running s = true := hr
      dsimp only at h
      split at h
      · cases h; cases he
      · split at h
        · next s1 hf =>
          obtain ⟨k, sk, h1, h2, h3⟩ := ih _ s1 s' e h he
          exact ⟨k + 1, sk, by rw [run_steps_succ_of_ok k hr' hf]; exact h1, h2, h3⟩
        · next e1 s1 hf =>
          cases h
          exact ⟨0, s, rfl, hr', hf⟩
        · cases h
    · cases h

/-- C9: fault atomicity.  When `execute_program` fails with an instruction fault
(*UnknownOpcode*, *UnknownFunct*, *OutOfBounds*), the fault was raised by the instruction
fetched in a state `s` of the run, and the state left behind has every register
`x1 .. x31` and both memory regions (and the image and the halt flag) exactly as in `s`,
with `pc` the address of the faulting instruction plus 4 (its four bytes lie inside the
image). -/
theorem fault_atomicity (vm : VM) (fuel entry n : Nat) (e : Fault) (s' : VM)
    (h : execute_program fuel entry n vm = some (.fault e s'))
    (he : e.is_instruction_fault = true) :
    ∃ k s, run_steps k (entry_state entry vm) = some s ∧ running s = true ∧
      fetch_execute s = .fault e s' ∧
      (∀ i, i ≠ 0 → s'.x i = s.x i) ∧ s'.data = s.data ∧ s'.stack = s.stack ∧
      s'.program = s.program ∧ s'.halted = s.halted ∧
      s'.pc = u64 (s.pc + 4) ∧ s.pc + 4 ≤ s.program.length ∧
      (s.program.length < 2 ^ 64 → s'.pc = s.pc + 4) := by
  have hdata : vm.data ≠ [] := by
    intro hd
    simp [execute_program, hd] at h
    rw [← h.1] at he
    cases he
  rw [execute_program_eq_loop vm fuel entry n hdata] at h
  obtain ⟨k, s, h1, h2, h3⟩ := execute_loop_fault n fuel 0 _ s' e h he
  obtain ⟨hs, _, hb⟩ := fetch_execute_fault h3
  refine ⟨k, s, h1, h2, h3, ?_, ?_, ?_, ?_, ?_, ?_, hb, ?_⟩
  · intro i hi
    subst hs
    simp [VM.write, hi]
  · subst hs; rfl
  · subst hs; rfl
  · subst hs; rfl
  · subst hs; rfl
  · subst hs; rfl
  · intro hlen
    subst hs
    show u64 (s.pc + 4) = s.pc + 4
    exact Nat.mod_eq_of_lt (by omega)

/-- C9 at a concrete run: `LD x1, 100(x0)` on a VM with `D = 1`, `S = 64` faults with
*OutOfBounds*; the state left behind is the entry state with `pc = 4`. -/
theorem fault_atomicity_witness :
    ∃ k s, run_steps k (entry_state 0 (host_vm 64 [0] image_ld_100)) = some s ∧
      fetch_execute s = .fault .out_of_bounds
        (({ entry_state 0 (host_vm 64 [0] image_ld_100) with pc := 4 } : VM).write 0 0) :=
  let ⟨k, s, h1, _, h3, _⟩ :=
    fault_atomicity (host_vm 64 [0] image_ld_100) 2 0 100 .out_of_bounds
      (({ entry_state 0 (host_vm 64 [0] image_ld_100) with pc := 4 } : VM).write 0 0) rfl rfl
  ⟨k, s, h1, h3⟩

/-! ### The validator -/

theorem fetch_execute_ok_shape {s s' : VM} (h : fetch_execute s = .ok s') :
    s'.program = s.program ∧ s'.data.length = s.data.length ∧
      s'.stack.length = s.stack.length := by
  unfold fetch_execute at h
  split at h
  · exact @execute_instruction_ok_shape _ ({ s with pc := u64 (s.pc + 4) } : VM) _ h
  · cases h

/-- The dry run keeps the image and the sizes of the stack and of the (detached) data
region. -/
theorem validate_loop_shape : ∀ (fuel : Nat) (err : List Fault) (s : VM)
    (err' : List Fault) (s' : VM), validate_loop fuel err s = some (.ok (err', s')) →
    s'.program = s.program ∧ s'.data.length = s.data.length ∧
      s'.stack.length = s.stack.length := by
  intro fuel
  induction fuel with
  | zero => intro err s err' s' h; cases h
  | succ fuel ih =>
    intro err s err' s' h
    unfold validate_loop at h
    split at h
    · dsimp only at h
      split at h
      · next s1 hf =>
        obtain ⟨h1, h2, h3⟩ := fetch_execute_ok_shape hf
        obtain ⟨g1, g2, g3⟩ := ih _ _ _ _ h
        exact ⟨g1.trans h1, g2.trans h2, g3.trans h3⟩
      · next e s1 hf =>
        obtain ⟨h1, _⟩ := fetch_execute_fault hf
        obtain ⟨g1, g2, g3⟩ := ih _ _ _ _ h
        subst h1
        exact ⟨g1, g2, g3⟩
      · cases h
    · cases h
      exact ⟨rfl, rfl, rfl⟩

/-- C8: validator postcondition.  When `load_program` accepts an image, every register
other than `x[2]` is 0, `x[2]` is `D + S` (the sizes of the attached data region and of
the stack), the attached data region is the one attached before the call, the stack has
kept its size and the image is installed. -/
theorem load_program_postcondition (prog : List Nat) (s s' : VM)
    (hsize : s.data.length + s.stack.length < 2 ^ 64)
    (h : load_program prog s = some (.ok s')) :
    (∀ i, i ≠ 2 → s'.x i = 0) ∧ s'.x 2 = s.data.length + s.stack.length ∧
      s'.data = s.data ∧ s'.stack.length = s.stack.length ∧ s'.program = prog := by
  unfold load_program at h
  split at h
  · cases h
  · unfold validate_program at h
    dsimp only at h
    split at h
    · cases h
    · cases h
    · cases h
    · next err s1 hv =>
      obtain ⟨g1, _, g3⟩ := validate_loop_shape _ _ _ _ _ hv
      split at h
      · cases h
      · have h1 := (Outcome.ok.inj (Option.some.inj h)).symm
        subst h1
        refine ⟨?_, ?_, rfl, g3, g1⟩
        · intro i hi
          simp [VM.write, hi]
        · simp only [VM.write, if_true]
          rw [g3]
          exact Nat.mod_eq_of_lt hsize

/-- C8 at a concrete image: `ADDI x0, x0, 5` is accepted by a VM with `D = 1`, `S = 64`,
and leaves `x[2] = 65` and the other registers 0. -/
theorem load_program_postcondition_witness :
    ∃ s', load_program image_addi_x0 (host_vm 64 [0] []) = some (.ok s') ∧
      (∀ i, i ≠ 2 → s'.x i = 0) ∧ s'.x 2 = 1 + 64 :=
  ⟨_, rfl,
    (load_program_postcondition image_addi_x0 (host_vm 64 [0] []) _ (by decide) rfl).1,
    (load_program_postcondition image_addi_x0 (host_vm 64 [0] []) _ (by decide) rfl).2.1⟩

/-- C7 (the code departs from the claim): on a VM with a 64-byte stack, `load_program`
accepts the image `LD x5, 64(x0); 0xFFFFFFFF`, although the aligned word at offset 4 has
the opcode field `0x7f`, which `execute_instruction` rejects with *UnknownOpcode*.  The load
faults during the dry run, the assignment `pc = tmp_pc` is skipped, and the loop
increment then steps over the word at offset 4. -/
theorem load_program_accepts_unknown_opcode :
    (∃ s', load_program image_ld_then_invalid (VM.construct 64) = some (.ok s')) ∧
      image_ld_then_invalid.length ≤ 1024 * 1024 ∧
      read_le image_ld_then_invalid 4 4 = some 0xFFFFFFFF ∧
      (decode 0xFFFFFFFF).opcode = 0x7f ∧
      (∀ s, execute_instruction 0xFFFFFFFF s = .fault .unknown_opcode (s.write 0 0)) :=
  ⟨⟨_, rfl⟩, by decide, rfl, rfl, fun _ => rfl⟩

/-- C6 (the claim as stated fails): on a freshly constructed VM with a 4096-byte stack
and no data mapped, `load_program` accepts `LUI x10, 0x12345; ADDI x10, x10, 0x678; EBREAK`,
and `execute_program` then fails with *NoDataMemory* instead of running the program. -/
theorem execute_without_data_fails :
    ∃ s1 t, load_program image_lui_addi_ebreak (VM.construct 4096) = some (.ok s1) ∧
      execute_program 4 0 100000 s1 = some (.fault .no_memory_context t) ∧ t.x 10 = 0 :=
  ⟨_, _, rfl, rfl, rfl⟩

theorem execute_loop_step {n fuel count : Nat} {s s1 : VM} {r : Option Outcome}
    (hr : running s = true) (hc : u64 (count + 1) ≤ n) (hf : fetch_execute s = .ok s1)
    (hrest : execute_loop n fuel (u64 (count + 1)) s1 = r) :
    execute_loop n (fuel + 1) count s = r := by
  have hr' : (!s.halted && in_image s) = true := hr
  simp [execute_loop, hr', Nat.not_lt.mpr hc, hf, hrest]

theorem execute_loop_stop {n fuel count : Nat} {s : VM} (hr : running s = false) :
    execute_loop n (fuel + 1) count s = some (.ok s) := by
  have hr' : (!s.halted && in_image s) = false := hr
  simp [execute_loop, hr']

/-- C6 (as amended): without a data region `execute_program` executes nothing: it fails
with *NoDataMemory*, leaving the VM as it was apart from `pc = entry_point` and the
cleared halt flag.  With a data region attached, the image
`LUI x10, 0x12345; ADDI x10, x10, 0x678; EBREAK` runs to its `EBREAK` and returns normally
with `x10 = 0x12345678` and `pc = 12`. -/
theorem execute_needs_data (vm : VM) (fuel entry n : Nat) :
    (vm.data = [] →
      execute_program fuel entry n vm =
        some (.fault .no_memory_context { vm with pc := entry, halted := false })) ∧
    (vm.data ≠ [] → vm.program = image_lui_addi_ebreak → 4 ≤ fuel → 3 ≤ n → n < 2 ^ 64 →
      ∃ s, execute_program fuel 0 n vm = some (.ok s) ∧ s.x 10 = 0x12345678 ∧
        s.halted = true ∧ s.pc = 12 ∧ s.data = vm.data ∧ s.stack = vm.stack) := by
  constructor
  · intro hd
    simp [execute_program, hd]
  · intro hd hprog hfuel hn3 hn
    obtain ⟨f, rfl⟩ : ∃ f, fuel = f + 4 := ⟨fuel - 4, by omega⟩
    obtain ⟨pc, program, x, stack, data, halted⟩ := vm
    dsimp only at hprog hd
    subst hprog
    rw [execute_program_eq_loop _ _ _ _ hd]
    let s0 : VM := entry_state 0 ⟨pc, image_lui_addi_ebreak, x, stack, data, halted⟩
    let s1 : VM := (({ s0 with pc := 4 } : VM).write 0 0).write 10 0x12345000
    let s2 : VM := (({ s1 with pc := 8 } : VM).write 0 0).write 10 (u64 (0x12345000 + 0x678))
    let s3 : VM := { (({ s2 with pc := 12 } : VM).write 0 0) with halted := true }
    have f0 : fetch_execute s0 = .ok s1 := rfl
    have f1 : fetch_execute s1 = .ok s2 := rfl
    have f2 : fetch_execute s2 = .ok s3 := rfl
    have hx : s3.x 10 = 0x12345678 := by
      show u64 (0x12345000 + 0x678) = 0x12345678
      decide
    exact ⟨s3,
      execute_loop_step (s := s0) rfl (le_trans (by decide) hn3) f0
        (execute_loop_step (s := s1) rfl (le_trans (by decide) hn3) f1
          (execute_loop_step (s := s2) rfl (le_trans (by decide) hn3) f2
            (execute_loop_stop (s := s3) rfl))),
      hx, rfl, rfl, rfl, rfl⟩


/-- C6 at concrete VMs with a 4096-byte stack: without data the call fails, with one byte
of data attached the example program yields `x10 = 0x12345678`. -/
theorem execute_needs_data_witness :
    execute_program 4 0 100000 (host_vm 4096 [] image_lui_addi_ebreak) =
        some (.fault .no_memory_context
          { host_vm 4096 [] image_lui_addi_ebreak with pc := 0, halted := false }) ∧
      ∃ s, execute_program 4 0 100000 (host_vm 4096 [0] image_lui_addi_ebreak) =
          some (.ok s) ∧ s.x 10 = 0x12345678 ∧ s.halted = true ∧ s.pc = 12 ∧
        s.data = (host_vm 4096 [0] image_lui_addi_ebreak).data ∧
        s.stack = (host_vm 4096 [0] image_lui_addi_ebreak).stack :=
  ⟨(execute_needs_data (host_vm 4096 [] image_lui_addi_ebreak) 4 0 100000).1 rfl,
    (execute_needs_data (host_vm 4096 [0] image_lui_addi_ebreak) 4 0 100000).2
      (by decide) rfl (by decide) (by decide) (by decide)⟩

/-! ### The program counter -/

theorem decode_funct3_lt (inst : Nat) : (decode inst).funct3 < 8 := by
  show u8 ((inst >>> 12) &&& 0x7) < 8
  have e : (inst >>> 12) &&& 0x7 = (inst >>> 12) % 2 ^ 3 :=
    Nat.and_pow_two_sub_one_eq_mod _ 3
  rw [e]
  unfold u8
  omega

theorem exec_branch_defined (funct3 rs1 rs2 imm : Nat) (s : VM)
    (h : funct3 = 0 ∨ funct3 = 1 ∨ funct3 = 4 ∨ funct3 = 5 ∨ funct3 = 6 ∨ funct3 = 7) :
    exec_branch funct3 rs1 rs2 imm s =
      if branch_condition funct3 (s.x rs1) (s.x rs2) = true then
        .ok { s with pc := u64 (s.pc + u64 (imm + (2 ^ 64 - 4))) }
      else .ok s := by
  rcases h with h | h | h | h | h | h <;> subst h <;> simp [exec_branch, branch_condition]

theorem exec_branch_undefined (funct3 rs1 rs2 imm : Nat) (s : VM)
    (h : funct3 = 2 ∨ funct3 = 3) :
    exec_branch funct3 rs1 rs2 imm s = .fault .unknown_branch s := by
  rcases h with h | h <;> subst h <;> rfl

/-- Where one iteration of the loop leaves `pc`: at the target of the control transfer
when the instruction is a `JAL`, a `JALR` or a taken branch, and at the next word
otherwise. -/
theorem fetch_execute_pc {s s1 : VM} (hlen : s.program.length < 2 ^ 64)
    (h : fetch_execute s = .ok s1) :
    s1.pc = (transfer_target s).getD (s.pc + 4) ∧ s.pc + 4 ≤ s.program.length := by
  unfold fetch_execute at h
  split at h
  · next inst hfe =>
    have hb := fetch_in_bounds hfe
    have hadv : u64 (s.pc + 4) = s.pc + 4 := Nat.mod_eq_of_lt (by omega)
    refine ⟨?_, hb⟩
    obtain ⟨g1, g2, _⟩ := @execute_instruction_ok_pc inst
      ({ s with pc := u64 (s.pc + 4) } : VM) s1 h
    simp only [hadv] at g1 g2
    unfold transfer_target
    rw [hfe]
    dsimp only
    by_cases hj : (decode inst).opcode = 0x6f
    · rw [if_pos hj, g2 hj]
      show _ = u64 (s.pc + (decode inst).imm_j)
      unfold u64; omega
    · rw [if_neg hj]
      by_cases hr : (decode inst).opcode = 0x67
      · rw [if_pos hr]
        unfold execute_instruction at h
        simp only [hr] at h
        have h1 := (Outcome.ok.inj h).symm
        subst h1
        rfl
      · rw [if_neg hr]
        by_cases hbr : (decode inst).opcode = 0x63
        · have hfe2 : execute_instruction inst ({ s with pc := u64 (s.pc + 4) } : VM) =
              exec_branch (decode inst).funct3 (decode inst).rs1 (decode inst).rs2
                (decode inst).imm_b (({ s with pc := u64 (s.pc + 4) } : VM).write 0 0) := by
            unfold execute_instruction
            simp only [hbr]
          rw [hfe2] at h
          have hlt := decode_funct3_lt inst
          by_cases h3 : (decode inst).funct3 = 2 ∨ (decode inst).funct3 = 3
          · rw [exec_branch_undefined _ _ _ _ _ h3] at h
            cases h
          · have hdef : (decode inst).funct3 = 0 ∨ (decode inst).funct3 = 1 ∨
                (decode inst).funct3 = 4 ∨ (decode inst).funct3 = 5 ∨
                (decode inst).funct3 = 6 ∨ (decode inst).funct3 = 7 := by omega
            rw [exec_branch_defined _ _ _ _ _ hdef] at h
            have hread : ∀ r,
                (({ s with pc := u64 (s.pc + 4) } : VM).write 0 0).x r = s.read r :=
              fun _ => rfl
            simp only [hread] at h
            by_cases hc : branch_condition (decode inst).funct3 (s.read (decode inst).rs1)
                (s.read (decode inst).rs2) = true
            · rw [if_pos hc] at h
              rw [if_pos ⟨hbr, hc⟩]
              have h1 := (Outcome.ok.inj h).symm
              subst h1
              show u64 (u64 (s.pc + 4) + u64 ((decode inst).imm_b + (2 ^ 64 - 4))) =
                u64 (s.pc + (decode inst).imm_b)
              rw [hadv]
              unfold u64; omega
            · rw [if_neg hc] at h
              rw [if_neg (fun hh => hc hh.2)]
              have h1 := (Outcome.ok.inj h).symm
              subst h1
              exact hadv
        · rw [if_neg (fun hh => hbr hh.1)]
          exact g1 hj hr hbr
  · cases h


/-- The positive answer of `run_transfers_ok` covers every instruction of the run. -/
theorem run_transfers_ok_sound (len : Nat) : ∀ (fuel : Nat) (s : VM),
    run_transfers_ok len fuel s = true →
    ∀ k sk t, run_steps k s = some sk → running sk = true → transfer_target sk = some t →
      t % 4 = 0 ∧ t ≤ len := by
  intro fuel
  induction fuel with
  | zero => intro s h; cases h
  | succ fuel ih =>
    intro s h k sk t hk hr ht
    unfold run_transfers_ok at h
    cases k with
    | zero =>
      have e : s = sk := Option.some.inj hk
      subst e
      simp only [hr, if_true, ht, Bool.and_eq_true, beq_iff_eq, decide_eq_true_eq] at h
      exact h.1
    | succ k =>
      unfold run_steps at hk
      split at hk
      · next hrs =>
        split at hk
        · next s1 hf =>
          simp only [hrs, if_true, hf, Bool.and_eq_true] at h
          exact ih s1 h.2 k sk t hk hr ht
        · cases hk
      · cases hk

/-- The loop keeps `pc` at a multiple of 4 inside `[0, len]` when it starts there and every
control transfer it executes targets such an address. -/
theorem execute_loop_pc_inv {prog : List Nat} (hlen : prog.length < 2 ^ 64) (n : Nat) :
    ∀ (fuel count : Nat) (s s' : VM), s.program = prog → s.pc % 4 = 0 →
      s.pc ≤ prog.length →
      (∀ k sk t, run_steps k s = some sk → running sk = true →
        transfer_target sk = some t → t % 4 = 0 ∧ t ≤ prog.length) →
      execute_loop n fuel count s = some (.ok s') →
      s'.program = prog ∧ s'.pc % 4 = 0 ∧ s'.pc ≤ prog.length := by
  intro fuel
  induction fuel with
  | zero => intro count s s' _ _ _ _ h; cases h
  | succ fuel ih =>
    intro count s s' hprog h4 hle htr h
    unfold execute_loop at h
    split at h
    · next hr =>
      dsimp only at h
      split at h
      · cases h
      · split at h
        · next s1 hf =>
          obtain ⟨hp1, _, _⟩ := fetch_execute_ok_shape hf
          obtain ⟨e, hb⟩ := fetch_execute_pc (by rw [hprog]; exact hlen) hf
          rw [hprog] at hb
          have hnext : s1.pc % 4 = 0 ∧ s1.pc ≤ prog.length := by
            cases ht : transfer_target s with
            | none =>
              rw [ht] at e
              have e2 : s1.pc = s.pc + 4 := e
              omega
            | some t =>
              rw [ht] at e
              have e2 : s1.pc = t := e
              rw [e2]
              exact htr 0 s t rfl hr ht
          refine ih _ s1 s' (hp1.trans hprog) hnext.1 hnext.2 ?_ h
          intro k sk t hk hrk ht
          exact htr (k + 1) sk t ((run_steps_succ_of_ok k hr hf).trans hk) hrk ht
        · cases h
        · cases h
    · have h1 := (Outcome.ok.inj (Option.some.inj h)).symm
      subst h1
      exact ⟨hprog, h4, hle⟩

/-- C5 (as amended): when the entry point is a multiple of 4 inside `[0, program.len]` and
every `JAL`, `JALR` and taken branch that the run executes has its target (`p + imm_J`,
`(x[rs1] + imm_I) & ~1`, `p + imm_B`, modulo `2^64`) at a multiple of 4 inside
`[0, program.len]`, then whenever `execute_program` returns normally `pc` is a multiple
of 4 inside `[0, program.len]`. -/
theorem pc_aligned_within_image (vm : VM) (fuel entry n : Nat) (s' : VM)
    (hlen : vm.program.length < 2 ^ 64) (hentry : entry % 4 = 0)
    (hle : entry ≤ vm.program.length)
    (htr : ∀ k sk t, run_steps k (entry_state entry vm) = some sk → running sk = true →
      transfer_target sk = some t → t % 4 = 0 ∧ t ≤ vm.program.length)
    (h : execute_program fuel entry n vm = some (.ok s')) :
    s'.pc % 4 = 0 ∧ s'.pc ≤ s'.program.length := by
  have hdata : vm.data ≠ [] := by
    intro hd
    simp [execute_program, hd] at h
  rw [execute_program_eq_loop vm fuel entry n hdata] at h
  obtain ⟨g1, g2, g3⟩ :=
    execute_loop_pc_inv hlen n fuel 0 (entry_state entry vm) s' rfl hentry hle htr h
  rw [g1]
  exact ⟨g2, g3⟩

/-- C5 at a concrete run: `ADDI x1, x0, 8; JALR x0, 0(x1); EBREAK` executes a `JALR` with
target 8 and returns with `pc = 12`. -/
theorem pc_aligned_within_image_witness :
    (∃ s1, run_steps 1 (entry_state 0 (host_vm 64 [0] image_addi_jalr_ebreak)) = some s1 ∧
        transfer_target s1 = some 8) ∧
      ∃ s', execute_program 4 0 100000 (host_vm 64 [0] image_addi_jalr_ebreak) =
          some (.ok s') ∧
        s'.pc = 12 ∧ s'.pc % 4 = 0 ∧ s'.pc ≤ s'.program.length :=
  ⟨⟨_, rfl, rfl⟩, _, rfl, rfl,
    pc_aligned_within_image (host_vm 64 [0] image_addi_jalr_ebreak) 4 0 100000 _ (by decide)
      (by decide) (by decide)
      (run_transfers_ok_sound 12 4 _ rfl) rfl⟩

/-- C5 (the claim as stated fails): `load_program` accepts `JAL x0, 6; EBREAK`, and
`execute_program` from entry point 0 returns normally with `pc = 6`, not a multiple of 4;
it accepts `JAL x0, 16` and `execute_program` returns normally with `pc = 16`, beyond the
4-byte image; on an empty image the entry point 2 is returned unchanged; and the taken
branch `BEQ x0, x0, 6` and the jump `JALR x0, 6(x0)` each return with `pc = 6`. -/
theorem pc_misaligned_after_jal :
    (∃ s1 s2, load_program image_jal_6 (host_vm 64 [0] []) = some (.ok s1) ∧
      execute_program 4 0 100000 s1 = some (.ok s2) ∧ s2.pc = 6 ∧ ¬ (s2.pc % 4 = 0)) ∧
    (∃ s1 s2, load_program image_jal_16 (host_vm 64 [0] []) = some (.ok s1) ∧
      execute_program 4 0 100000 s1 = some (.ok s2) ∧ s2.pc = 16 ∧
      ¬ (s2.pc ≤ s2.program.length)) ∧
    (∃ s2, execute_program 4 2 100000 (host_vm 64 [0] []) = some (.ok s2) ∧ s2.pc = 2) ∧
    (∃ s1 s2, load_program image_beq_6 (host_vm 64 [0] []) = some (.ok s1) ∧
      execute_program 4 0 100000 s1 = some (.ok s2) ∧ s2.pc = 6 ∧ ¬ (s2.pc % 4 = 0)) ∧
    (∃ s1 s2, load_program image_jalr_6 (host_vm 64 [0] []) = some (.ok s1) ∧
      execute_program 4 0 100000 s1 = some (.ok s2) ∧ s2.pc = 6 ∧ ¬ (s2.pc % 4 = 0)) :=
  ⟨⟨_, _, rfl, rfl, rfl, by decide⟩, ⟨_, _, rfl, rfl, rfl, by decide⟩, ⟨_, rfl, rfl⟩,
    ⟨_, _, rfl, rfl, rfl, by decide⟩, ⟨_, _, rfl, rfl, rfl, by decide⟩⟩

/-! ### Division -/

/-- C10: division by zero.  For an `OP` word (opcode `0x33`) with `funct7 = 1` whose
divisor register reads 0, `DIV` and `DIVU` write `2^64 - 1` and `REM` and `REMU` write the
dividend; for an `OP-32` word (opcode `0x3b`) with `funct7 = 1` whose divisor has its low
32 bits 0, `DIVW` and `DIVUW` write `2^64 - 1` and `REMW` and `REMUW` write the low 32
bits of the dividend sign-extended to 64 bits.  The instruction completes (no fault),
and no other register changes apart from the clearing of `x[0]`. -/
theorem division_by_zero (inst : Nat) (s : VM) (h7 : (decode inst).funct7 = 1) :
    ((decode inst).opcode = 0x33 → s.read (decode inst).rs2 = 0 →
      (((decode inst).funct3 = 4 ∨ (decode inst).funct3 = 5) →
        execute_instruction inst s = .ok ((s.write 0 0).write (decode inst).rd (2 ^ 64 - 1))) ∧
      (((decode inst).funct3 = 6 ∨ (decode inst).funct3 = 7) →
        execute_instruction inst s =
          .ok ((s.write 0 0).write (decode inst).rd (s.read (decode inst).rs1)))) ∧
    ((decode inst).opcode = 0x3b → s.read (decode inst).rs2 % 2 ^ 32 = 0 →
      (((decode inst).funct3 = 4 ∨ (decode inst).funct3 = 5) →
        execute_instruction inst s = .ok ((s.write 0 0).write (decode inst).rd (2 ^ 64 - 1))) ∧
      (((decode inst).funct3 = 6 ∨ (decode inst).funct3 = 7) →
        execute_instruction inst s =
          .ok ((s.write 0 0).write (decode inst).rd
            (if s.read (decode inst).rs1 % 2 ^ 32 < 2 ^ 31 then s.read (decode inst).rs1 % 2 ^ 32
             else s.read (decode inst).rs1 % 2 ^ 32 + (2 ^ 64 - 2 ^ 32))))) := by
  refine ⟨fun hop hb => ⟨?_, ?_⟩, fun hop hb => ⟨?_, ?_⟩⟩
  · rintro (h3 | h3) <;>
    · unfold execute_instruction
      simp only [hop]
      unfold exec_alu_reg
      simp only [h7, h3]
      simp only [VM.read] at hb
      simp [u8, hb]
  · rintro (h3 | h3) <;>
    · unfold execute_instruction
      simp only [hop]
      unfold exec_alu_reg
      simp only [h7, h3]
      simp only [VM.read] at hb
      simp [u8, hb, VM.read]
  · rintro (h3 | h3) <;>
    · unfold execute_instruction
      simp only [hop]
      unfold exec_alu_reg32
      simp only [h7, h3]
      simp only [VM.read] at hb
      simp [u8, u32, sign_extend_32_eq]
      intro hne
      exact absurd hb hne
  · rintro (h3 | h3) <;>
    · unfold execute_instruction
      simp only [hop]
      unfold exec_alu_reg32
      simp only [h7, h3]
      simp only [VM.read] at hb
      simp [u8, u32, VM.read, sign_extend_32_eq]
      intro hne
      exact absurd hb hne

/-- C10 at a concrete word: `DIV x7, x5, x0` (`0x0202C3B3`) writes `2^64 - 1`. -/
theorem division_by_zero_witness :
    execute_instruction 0x0202C3B3 (host_vm 64 [0] []) =
      .ok (((host_vm 64 [0] []).write 0 0).write 7 (2 ^ 64 - 1)) :=
  ((division_by_zero 0x0202C3B3 (host_vm 64 [0] []) (by decide)).1 (by decide) (by decide)).1
    (Or.inl (by decide))


/-! ### Termination -/

/-- The dry run always leaves its loop: fuel for one iteration per word is enough. -/
theorem validate_loop_returns : ∀ (fuel : Nat) (err : List Fault) (s : VM),
    s.program.length ≤ 1024 * 1024 → s.pc ≤ s.program.length + 8 →
    s.program.length + 1 ≤ s.pc + 4 * (fuel + 1) →
    ∃ r, validate_loop (fuel + 1) err s = some r := by
  intro fuel
  induction fuel with
  | zero =>
    intro err s hlen hpc hfuel
    have hi : in_image s = false := by
      simp only [in_image, u64, decide_eq_false_iff_not]
      omega
    exact ⟨.ok (err, s), by simp [validate_loop, hi]⟩
  | succ fuel ih =>
    intro err s hlen hpc hfuel
    by_cases hi : in_image s = true
    · have hlt : s.pc + 3 < s.program.length := by
        simp only [in_image, u64, decide_eq_true_eq] at hi
        omega
      have e4 : u64 (s.pc + 4) = s.pc + 4 := Nat.mod_eq_of_lt (by omega)
      cases hf : fetch_execute s with
      | ok s1 =>
        obtain ⟨h1, _, _⟩ := fetch_execute_ok_shape hf
        obtain ⟨r, hr⟩ := ih err ({ s1 with pc := u64 (s.pc + 4) } : VM)
          (by simpa [h1] using hlen) (by simp only [e4, h1]; omega)
          (by simp only [e4, h1]; omega)
        exact ⟨r, by rw [validate_loop]; simp only [hi, hf, if_true]; exact hr⟩
      | fault e s1 =>
        obtain ⟨h1, _, _⟩ := fetch_execute_fault hf
        have hp1 : s1.program = s.program := by subst h1; rfl
        have hpc1 : s1.pc = s.pc + 4 := by subst h1; exact e4
        have e8 : u64 (s1.pc + 4) = s.pc + 8 := by rw [hpc1]; exact Nat.mod_eq_of_lt (by omega)
        obtain ⟨r, hr⟩ := ih (if e.is_invalid_argument then err ++ [e] else err)
          ({ s1 with pc := u64 (s1.pc + 4) } : VM)
          (by simpa [hp1] using hlen) (by simp only [e8, hp1]; omega)
          (by simp only [e8, hp1]; omega)
        exact ⟨r, by rw [validate_loop]; simp only [hi, hf, if_true]; exact hr⟩
      | undefined =>
        exact ⟨.undefined, by rw [validate_loop]; simp only [hi, hf, if_true]⟩
    · have hi' : in_image s = false := by simpa using hi
      exact ⟨.ok (err, s), by simp [validate_loop, hi']⟩

/-- `load_program` always returns: the fuel its dry run is given is never used up. -/
theorem load_program_returns (prog : List Nat) (s : VM) :
    ∃ out, load_program prog s = some out := by
  unfold load_program
  split
  · exact ⟨_, rfl⟩
  · next hsz =>
    obtain ⟨r, hr⟩ := validate_loop_returns prog.length []
      ({ s with program := prog, data := [], pc := 0 } : VM)
      (by simpa using hsz) (by simp) (by simp only; omega)
    unfold validate_program
    dsimp only
    rw [hr]
    cases r with
    | ok p =>
      obtain ⟨err, s1⟩ := p
      dsimp only
      split <;> exact ⟨_, rfl⟩
    | fault e => exact ⟨_, rfl⟩
    | undefined => exact ⟨_, rfl⟩

/-- One iteration of the loop on the image `JAL x0, 0` at `pc = 0` returns to `pc = 0`. -/
theorem jal_self_step {s : VM} (hprog : s.program = image_jal_self) (hpc : s.pc = 0)
    (hh : s.halted = false) :
    ∃ s1, fetch_execute s = .ok s1 ∧ s1.program = image_jal_self ∧ s1.pc = 0 ∧
      s1.halted = false := by
  have hf : fetch s = some 0x6F := by
    unfold fetch
    rw [hprog, hpc]
    rfl
  have hop : (decode 0x6F).opcode = 0x6f := by decide
  have himm : (decode 0x6F).imm_j = 0 := by decide
  have he : ∀ t : VM, ∃ t1, execute_instruction 0x6F t = .ok t1 ∧ t1.program = t.program ∧
      t1.halted = t.halted ∧ t1.pc = u64 (t.pc + u64 (0 + (2 ^ 64 - 4))) := by
    intro t
    unfold execute_instruction
    simp only [hop, himm]
    exact ⟨_, rfl, rfl, rfl, rfl⟩
  obtain ⟨t1, h1, h2, h3, h4⟩ := he ({ s with pc := u64 (s.pc + 4) } : VM)
  refine ⟨t1, by rw [fetch_execute, hf]; exact h1, h2.trans hprog, ?_, h3.trans hh⟩
  rw [h4]
  show u64 (u64 (s.pc + 4) + u64 (0 + (2 ^ 64 - 4))) = 0
  rw [hpc]
  decide

/-- With the budget `2^64 - 1` the counter of `execute_program` never exceeds the budget:
the loop `JAL x0, 0` is never left, whatever the fuel. -/
theorem jal_self_never_returns (fuel : Nat) :
    execute_program fuel 0 (2 ^ 64 - 1) (host_vm 64 [0] image_jal_self) = none := by
  have key : ∀ (fuel count : Nat) (s : VM), s.program = image_jal_self → s.pc = 0 →
      s.halted = false → execute_loop (2 ^ 64 - 1) fuel count s = none := by
    intro fuel
    induction fuel with
    | zero => intro count s _ _ _; rfl
    | succ fuel ih =>
      intro count s hprog hpc hh
      obtain ⟨s1, hf, g1, g2, g3⟩ := jal_self_step hprog hpc hh
      have hr : (!s.halted && in_image s) = true := by
        simp only [in_image, hprog, hpc, hh]
        decide
      have hc : ¬ u64 (count + 1) > 2 ^ 64 - 1 := by
        unfold u64
        omega
      rw [execute_loop]
      simp only [hr, if_true, hc, if_false, hf]
      exact ih _ s1 g1 g2 g3
  rw [execute_program_eq_loop _ _ _ _ (by decide)]
  exact key fuel 0 _ rfl rfl rfl

/-! ### Overflowing signed division -/

/-- C11 (the code departs from the claim): with `x5 = 0x8000000000000000` and
`x6 = 0xFFFFFFFFFFFFFFFF`, the words `DIV x7, x5, x6` (`0x0262C3B3`) and
`REM x7, x5, x6` (`0x0262E3B3`) take the branch that evaluates the signed `/` and `%` of
`INT64_MIN` by `-1`, an operation whose behaviour C++ leaves undefined: the divisor is
only tested against 0. -/
theorem div_overflow_undefined :
    ((decode 0x0262C3B3).opcode = 0x33 ∧ (decode 0x0262C3B3).funct7 = 1 ∧
      (decode 0x0262C3B3).funct3 = 4 ∧ (decode 0x0262C3B3).rd = 7 ∧
      (decode 0x0262C3B3).rs1 = 5 ∧ (decode 0x0262C3B3).rs2 = 6) ∧
    ((decode 0x0262E3B3).opcode = 0x33 ∧ (decode 0x0262E3B3).funct7 = 1 ∧
      (decode 0x0262E3B3).funct3 = 6 ∧ (decode 0x0262E3B3).rd = 7 ∧
      (decode 0x0262E3B3).rs1 = 5 ∧ (decode 0x0262E3B3).rs2 = 6) ∧
    as_signed 64 0x8000000000000000 = -(2 ^ 63) ∧ as_signed 64 0xFFFFFFFFFFFFFFFF = -1 ∧
    execute_instruction 0x0262C3B3 (vm_x5_x6 0x8000000000000000 0xFFFFFFFFFFFFFFFF) =
      .undefined ∧
    execute_instruction 0x0262E3B3 (vm_x5_x6 0x8000000000000000 0xFFFFFFFFFFFFFFFF) =
      .undefined :=
  ⟨by decide, by decide, by decide, by decide, rfl, rfl⟩

/-! ### The eight-bit `op` of the register forms -/

/-- The value `op` the register forms switch on is below 256, so it is never one of the
case labels `0x100` and `0x105`. -/
theorem alu_op_below_256 (funct3 funct7 : Nat) :
    u8 ((funct7 <<< 3) ||| funct3) < 256 ∧ u8 ((funct7 <<< 3) ||| funct3) ≠ 0x100 ∧
      u8 ((funct7 <<< 3) ||| funct3) ≠ 0x105 := by
  have h : u8 ((funct7 <<< 3) ||| funct3) < 256 := Nat.mod_lt _ (by norm_num)
  omega

/-- C12 (the code departs from the claim): the word `SUB x7, x5, x6` (`0x406283B3`,
`funct7 = 0x20`, `funct3 = 0`) adds: `op` is a `u8`, so `0x20 << 3 | 0` is reduced to 0 and
the `switch` takes the `ADD` case; the case `0x100` is never reached.  With `x5 = 5` and
`x6 = 3` the result is 8, and `SUB x7, x5, x5` (`0x405283B3`) with `x5 = 5` yields 10. -/
theorem sub_executes_as_add :
    ((decode 0x406283B3).opcode = 0x33 ∧ (decode 0x406283B3).funct7 = 0x20 ∧
      (decode 0x406283B3).funct3 = 0 ∧ (decode 0x406283B3).rd = 7 ∧
      (decode 0x406283B3).rs1 = 5 ∧ (decode 0x406283B3).rs2 = 6) ∧
    (∀ s, execute_instruction 0x406283B3 s =
      .ok ((s.write 0 0).write 7 (u64 (s.read 5 + s.read 6)))) ∧
    (∃ s', execute_instruction 0x406283B3 (vm_x5_x6 5 3) = .ok s' ∧ s'.x 7 = 8) ∧
    ((decode 0x405283B3).opcode = 0x33 ∧ (decode 0x405283B3).funct7 = 0x20 ∧
      (decode 0x405283B3).funct3 = 0 ∧ (decode 0x405283B3).rd = 7 ∧
      (decode 0x405283B3).rs1 = 5 ∧ (decode 0x405283B3).rs2 = 5) ∧
    (∃ s', execute_instruction 0x405283B3 (vm_x5_x6 5 3) = .ok s' ∧ s'.x 7 = 10) :=
  ⟨by decide, fun _ => rfl, ⟨_, rfl, rfl⟩, by decide, ⟨_, rfl, rfl⟩⟩

/-- C19 (the code departs from the claim): the word `SRA x7, x5, x6` (`0x4062D3B3`,
`funct7 = 0x20`, `funct3 = 5`) shifts logically: `op` is a `u8`, so `0x20 << 3 | 5` is
reduced to 5 and the `switch` takes the `SRL` case; the case `0x105` is never reached.
With `x5 = 0x8000000000000000` and `x6 = 4` the result is `0x0800000000000000`, the
result of `SRL x7, x5, x6` (`0x0062D3B3`). -/
theorem sra_executes_as_srl :
    ((decode 0x4062D3B3).opcode = 0x33 ∧ (decode 0x4062D3B3).funct7 = 0x20 ∧
      (decode 0x4062D3B3).funct3 = 5 ∧ (decode 0x4062D3B3).rd = 7 ∧
      (decode 0x4062D3B3).rs1 = 5 ∧ (decode 0x4062D3B3).rs2 = 6) ∧
    (∀ s, execute_instruction 0x4062D3B3 s =
      .ok ((s.write 0 0).write 7 (s.read 5 >>> (s.read 6 &&& 0x3f)))) ∧
    (∀ s, execute_instruction 0x0062D3B3 s =
      .ok ((s.write 0 0).write 7 (s.read 5 >>> (s.read 6 &&& 0x3f)))) ∧
    (∃ s', execute_instruction 0x4062D3B3 (vm_x5_x6 0x8000000000000000 4) = .ok s' ∧
      s'.x 7 = 0x0800000000000000) :=
  ⟨by decide, fun _ => rfl, fun _ => rfl, ⟨_, rfl, by decide⟩⟩

/-! ### The upper immediate -/

/-- C14 (the code departs from the claim): the word `LUI x5, 0x80000` (`0x800002B7`)
sets `x5` to `0x0000000080000000`, not `0xFFFFFFFF80000000`: `imm_u` is a `u64` initialised
from the `u32` value `inst & 0xfffff000`, which is zero-extended.  (`LUI x10, 0x12345`,
`0x12345537`, gives `0x12345000`.) -/
theorem lui_zero_extends :
    ((decode 0x800002B7).opcode = 0x37 ∧ (decode 0x800002B7).rd = 5 ∧
      (decode 0x800002B7).imm_u = 0x80000000) ∧
    (∀ s, execute_instruction 0x800002B7 s = .ok ((s.write 0 0).write 5 0x80000000)) ∧
    (∀ s, execute_instruction 0x12345537 s = .ok ((s.write 0 0).write 10 0x12345000)) :=
  ⟨by decide, fun _ => rfl, fun _ => rfl⟩

/-! ### Immediate shifts -/

/-- C17 (the code departs from the claim): the word `SLLI x6, x5, 32` (`0x02029313`,
bits 25:20 = 32) leaves the value unshifted: `shamt` is the five-bit field `rs2`
(bits 24:20), which is 0 here.  With `x5 = 1` the result is 1, not `0x100000000`. -/
theorem slli_32_shifts_by_0 :
    ((decode 0x02029313).opcode = 0x13 ∧ (decode 0x02029313).funct3 = 1 ∧
      (decode 0x02029313).rd = 6 ∧ (decode 0x02029313).rs1 = 5 ∧
      (0x02029313 >>> 20) &&& 0x3f = 32 ∧ (decode 0x02029313).shamt = 0) ∧
    (∀ s, execute_instruction 0x02029313 s = .ok ((s.write 0 0).write 6 (u64 (s.read 5)))) ∧
    (∃ s', execute_instruction 0x02029313 (vm_x5_x6 1 0) = .ok s' ∧ s'.x 6 = 1) :=
  ⟨by decide, fun _ => rfl, ⟨_, rfl, rfl⟩⟩

/-- C18 (the code departs from the claim): the word `SRLI x6, x5, 32` (`0x0202D313`,
bit 30 clear, bits 25:20 = 32) runs the `SRAI` branch with shift amount 0: `funct7` is
bits 31:25, so bit 25 of the shift amount makes `funct7 = 1`, not 0, and `shamt` is the
five-bit field `rs2`.  With `x5 = 0x8000000000000000` the result is
`0x8000000000000000`, not `0x0000000080000000`. -/
theorem srli_32_runs_srai_by_0 :
    ((decode 0x0202D313).opcode = 0x13 ∧ (decode 0x0202D313).funct3 = 5 ∧
      (decode 0x0202D313).rd = 6 ∧ (decode 0x0202D313).rs1 = 5 ∧
      (0x0202D313 >>> 30) &&& 1 = 0 ∧ (0x0202D313 >>> 20) &&& 0x3f = 32 ∧
      (decode 0x0202D313).funct7 = 1 ∧ (decode 0x0202D313).shamt = 0) ∧
    (∀ s, execute_instruction 0x0202D313 s =
      .ok ((s.write 0 0).write 6 (sar 64 (s.read 5) 0))) ∧
    (∃ s', execute_instruction 0x0202D313 (vm_x5_x6 0x8000000000000000 0) = .ok s' ∧
      s'.x 6 = 0x8000000000000000) :=
  ⟨by decide, fun _ => rfl, ⟨_, rfl, by decide⟩⟩

/-! ### Fetches next to `2^64` -/

/-- Without wrap-around of `pc+3` the loop condition holds exactly when the four bytes at
`pc` lie inside the image, and the fetch then reads them. -/
theorem in_image_iff_of_no_wrap (s : VM) (h : s.pc + 3 < 2 ^ 64) :
    (in_image s = true ↔ s.pc + 4 ≤ s.program.length) ∧
      (in_image s = true → ∃ inst, fetch s = some inst) := by
  have e : u64 (s.pc + 3) = s.pc + 3 := Nat.mod_eq_of_lt h
  have hiff : in_image s = true ↔ s.pc + 4 ≤ s.program.length := by
    simp only [in_image, e, decide_eq_true_eq]
    omega
  exact ⟨hiff, fun hi => read_le_some_of_le 4 _ _ (hiff.mp hi)⟩

/-- C16 (the code departs from the claim): `load_program` accepts the image
`ADDI x1, x0, -1; JALR x0, 0(x1)`; its jump sets `pc = 2^64 - 2`, the sum `pc+3` wraps to
1, the loop condition holds although `pc + 4 > program.len`, and the loop fetches four
bytes outside the image instead of returning.  The same happens at once for the entry
point `2^64 - 1` on a 4-byte image. -/
theorem fetch_outside_image_after_wrap :
    (∃ s1, load_program image_jalr_top (host_vm 64 [0] []) = some (.ok s1) ∧
      execute_program 4 0 100000 s1 = some .undefined ∧
      ∃ s, run_steps 2 (entry_state 0 s1) = some s ∧ s.pc = 2 ^ 64 - 2 ∧
        s.halted = false ∧ in_image s = true ∧ ¬ (s.pc + 4 ≤ s.program.length) ∧
        fetch s = none) ∧
    (execute_program 4 (2 ^ 64 - 1) 100000 (host_vm 64 [0] image_jal_self) =
        some .undefined ∧
      in_image (entry_state (2 ^ 64 - 1) (host_vm 64 [0] image_jal_self)) = true ∧
      ¬ (2 ^ 64 - 1 + 4 ≤ image_jal_self.length)) :=
  ⟨⟨_, rfl, rfl, _, rfl, by decide, rfl, rfl, by decide, rfl⟩, rfl, rfl, by decide⟩

/-! ### 32-bit results -/

theorem exec_alu_imm32_ok_sext {funct3 funct7 rd rs1 imm shamt : Nat} {s s' : VM}
    (h : exec_alu_imm32 funct3 funct7 rd rs1 imm shamt s = .ok s') :
    ∃ r, s' = s.write rd (sign_extend 32 r) := by
  unfold exec_alu_imm32 at h
  dsimp only at h
  split at h <;> (try split at h) <;>
    first
    | (cases h; exact ⟨_, rfl⟩)
    | cases h

theorem exec_alu_reg32_ok_sext {funct3 funct7 rd rs1 rs2 : Nat} {s s' : VM}
    (h : exec_alu_reg32 funct3 funct7 rd rs1 rs2 s = .ok s') :
    ∃ r, s' = s.write rd (sign_extend 32 r) := by
  unfold exec_alu_reg32 at h
  dsimp only at h
  split at h <;> (try split at h) <;> (try split at h) <;>
    first
    | (cases h; exact ⟨_, rfl⟩)
    | cases h

/-- A sign-extended 32-bit value is below `2^64` and its bits 63..32 repeat bit 31. -/
theorem sign_extend_32_bits (r : Nat) :
    sign_extend 32 r < 2 ^ 64 ∧
      sign_extend 32 r / 2 ^ 32 =
        (if sign_extend 32 r / 2 ^ 31 % 2 = 1 then 2 ^ 32 - 1 else 0) := by
  rw [sign_extend_32_eq]
  split <;> (constructor <;> (try split) <;> omega)

/-- The I-immediate in closed form: bits 31:20 of the word, sign-extended from 12 to 64
bits. -/
theorem decode_imm_i (inst : Nat) (h : inst < 2 ^ 32) :
    (decode inst).imm_i =
      if inst / 2 ^ 20 < 2 ^ 11 then inst / 2 ^ 20 else inst / 2 ^ 20 + (2 ^ 64 - 2 ^ 12) := by
  show sign_extend 32 (sar 32 inst 20) = _
  unfold sar
  rw [Int.shiftRight_eq_div_pow]
  unfold sign_extend as_signed of_signed
  have e20 : ((2 ^ 20 : Nat) : Int) = 2 ^ 20 := by norm_num
  rw [e20]
  split <;> split <;> split <;> omega

/-- C15: 32-bit results are sign-extended.  When an instruction with opcode `0x1b`
(`OP-IMM-32`) or `0x3b` (`OP-32`) completes, the new `x[rd]` is a 64-bit value whose
bits 63..32 are all ones when its bit 31 is set and all zeros otherwise.  `ADDIW`
(opcode `0x1b`, `funct3 = 0`) always completes and writes the sign extension of
`(x[rs1] + imm) mod 2^32`. -/
theorem word_results_sign_extended (inst : Nat) (s : VM)
    (hop : (decode inst).opcode = 0x1b ∨ (decode inst).opcode = 0x3b) :
    (∀ s', execute_instruction inst s = .ok s' →
      s'.x (decode inst).rd < 2 ^ 64 ∧
        s'.x (decode inst).rd / 2 ^ 32 =
          (if s'.x (decode inst).rd / 2 ^ 31 % 2 = 1 then 2 ^ 32 - 1 else 0)) ∧
    ((decode inst).opcode = 0x1b → (decode inst).funct3 = 0 →
      execute_instruction inst s =
        .ok ((s.write 0 0).write (decode inst).rd
          (if (s.read (decode inst).rs1 + (decode inst).imm_i) % 2 ^ 32 < 2 ^ 31 then
            (s.read (decode inst).rs1 + (decode inst).imm_i) % 2 ^ 32
           else (s.read (decode inst).rs1 + (decode inst).imm_i) % 2 ^ 32 +
            (2 ^ 64 - 2 ^ 32)))) := by
  constructor
  · intro s' h
    have key : ∃ r, s' = (s.write 0 0).write (decode inst).rd (sign_extend 32 r) := by
      unfold execute_instruction at h
      dsimp only at h
      rcases hop with hop | hop
      · simp only [hop] at h
        exact exec_alu_imm32_ok_sext h
      · simp only [hop] at h
        exact exec_alu_reg32_ok_sext h
    obtain ⟨r, hr⟩ := key
    have hx : s'.x (decode inst).rd = sign_extend 32 r := by
      subst hr
      simp [VM.write]
    rw [hx]
    exact sign_extend_32_bits r
  · intro h1 h3
    unfold execute_instruction
    simp only [h1]
    unfold exec_alu_imm32
    simp only [h3, VM.read, sign_extend_32_eq, u32]
    have e : ((s.write 0 0).x (decode inst).rs1 % 2 ^ 32 + (decode inst).imm_i % 2 ^ 32)
        % 2 ^ 32 % 2 ^ 32 = ((s.write 0 0).x (decode inst).rs1 + (decode inst).imm_i)
        % 2 ^ 32 := by omega
    rw [e]

/-- C15 at a concrete word: `ADDIW x7, x0, -1` (`0xFFF0039B`) gives
`x7 = 0xFFFFFFFFFFFFFFFF`. -/
theorem word_results_sign_extended_witness :
    ∃ s', execute_instruction 0xFFF0039B (host_vm 64 [0] []) = .ok s' ∧
      s'.x 7 = 0xFFFFFFFFFFFFFFFF ∧ s'.x 7 / 2 ^ 32 = 2 ^ 32 - 1 :=
  ⟨_, rfl, by decide,
    ((word_results_sign_extended 0xFFF0039B (host_vm 64 [0] []) (Or.inl (by decide))).1 _
      rfl).2.trans (by decide)⟩

/-! ### High multiplication -/

theorem as_signed_64_bounds (a : Nat) :
    -(2 ^ 63) ≤ as_signed 64 a ∧ as_signed 64 a < 2 ^ 63 := by
  unfold as_signed
  split <;> omega

theorem as_signed_64_emod (a : Nat) : as_signed 64 a % 2 ^ 64 = (a : Int) % 2 ^ 64 := by
  unfold as_signed
  split <;> omega

theorem as_signed_of_signed_64 (q : Int) (h1 : -(2 ^ 63) ≤ q) (h2 : q < 2 ^ 63) :
    as_signed 64 (of_signed 64 q) = q := by
  unfold as_signed of_signed
  split <;> omega

theorem of_signed_64_lt (q : Int) : of_signed 64 q < 2 ^ 64 := by
  unfold of_signed
  omega

/-- The product of two signed 64-bit values lies within `2^126` of 0. -/
theorem signed_product_bounds (x y : Int) (hx1 : -(2 ^ 63) ≤ x) (hx2 : x < 2 ^ 63)
    (hy1 : -(2 ^ 63) ≤ y) (hy2 : y < 2 ^ 63) :
    -(2 ^ 126) ≤ x * y ∧ x * y ≤ 2 ^ 126 := by
  have hax : |x| ≤ 2 ^ 63 := abs_le.mpr ⟨hx1, le_of_lt hx2⟩
  have hay : |y| ≤ 2 ^ 63 := abs_le.mpr ⟨hy1, le_of_lt hy2⟩
  have h : |x * y| ≤ 2 ^ 63 * 2 ^ 63 := by
    rw [abs_mul]
    exact mul_le_mul hax hay (abs_nonneg y) (by norm_num)
  have h' := abs_le.mp h
  constructor
  · have e : -(2 ^ 63 * 2 ^ 63 : Int) = -(2 ^ 126) := by norm_num
    rw [← e]; exact h'.1
  · have e : (2 ^ 63 * 2 ^ 63 : Int) = 2 ^ 126 := by norm_num
    rw [← e]; exact h'.2

/-- The arithmetic of `MULH` and `MUL`: high word read as signed, low word as unsigned. -/
theorem mulh_mul_arith (a b : Nat) :
    as_signed 64 (of_signed 64 ((as_signed 64 a * as_signed 64 b) >>> (64 : Nat))) * 2 ^ 64 +
        ((u64 (a * b) : Nat) : Int) =
      as_signed 64 a * as_signed 64 b := by
  obtain ⟨ha1, ha2⟩ := as_signed_64_bounds a
  obtain ⟨hb1, hb2⟩ := as_signed_64_bounds b
  obtain ⟨hp1, hp2⟩ := signed_product_bounds _ _ ha1 ha2 hb1 hb2
  have hlow : ((u64 (a * b) : Nat) : Int) = (as_signed 64 a * as_signed 64 b) % 2 ^ 64 := by
    unfold u64
    rw [Int.mul_emod (as_signed 64 a), as_signed_64_emod a, as_signed_64_emod b,
      ← Int.mul_emod]
    push_cast
    rfl
  rw [hlow, Int.shiftRight_eq_div_pow]
  generalize as_signed 64 a * as_signed 64 b = p at hp1 hp2 ⊢
  have e : ((2 ^ 64 : Nat) : Int) = 2 ^ 64 := by norm_num
  rw [e, as_signed_of_signed_64 _ (by omega) (by omega)]
  omega

/-- C13: `MULH` and `MUL` reconstruct the signed product.  For every register state,
`MULH` (`funct7 = 1`, `funct3 = 1`) writes a 64-bit value `h` and `MUL` (`funct7 = 1`,
`funct3 = 0`) a 64-bit value `l` with `signed(h) * 2^64 + l = signed(a) * signed(b)` as
integers, where `a = x[rs1]` and `b = x[rs2]`; for `a = 0xFFFFFFFFFFFFFFFF`, `b = 2` the
word `MULH x7, x5, x6` (`0x026293B3`) gives `h = 0xFFFFFFFFFFFFFFFF`. -/
theorem mulh_mul_reconstruct :
    (∀ (s : VM) (rd rs1 rs2 : Nat), ∃ h l,
      exec_alu_reg 1 1 rd rs1 rs2 s = .ok (s.write rd h) ∧
      exec_alu_reg 0 1 rd rs1 rs2 s = .ok (s.write rd l) ∧ h < 2 ^ 64 ∧ l < 2 ^ 64 ∧
      as_signed 64 h * 2 ^ 64 + (l : Int) =
        as_signed 64 (s.x rs1) * as_signed 64 (s.x rs2)) ∧
    ((decode 0x026293B3).opcode = 0x33 ∧ (decode 0x026293B3).funct7 = 1 ∧
      (decode 0x026293B3).funct3 = 1 ∧ (decode 0x026293B3).rd = 7 ∧
      (decode 0x026293B3).rs1 = 5 ∧ (decode 0x026293B3).rs2 = 6) ∧
    (∃ s', execute_instruction 0x026293B3 (vm_x5_x6 0xFFFFFFFFFFFFFFFF 2) = .ok s' ∧
      s'.x 7 = 0xFFFFFFFFFFFFFFFF) := by
  refine ⟨?_, by decide, ⟨_, rfl, by decide⟩⟩
  intro s rd rs1 rs2
  refine ⟨of_signed 64 ((as_signed 64 (s.x rs1) * as_signed 64 (s.x rs2)) >>> (64 : Nat)),
    u64 (s.x rs1 * s.x rs2), ?_, ?_, of_signed_64_lt _, ?_, mulh_mul_arith _ _⟩
  · simp [exec_alu_reg, u8]
  · simp [exec_alu_reg, u8]
  · exact Nat.mod_lt _ (by norm_num)

set_option maxRecDepth 10000 in
/-- The arithmetic of `MULHSU`: the high word of the 128-bit pattern of
`signed(a) * b`. -/
theorem mulhsu_arith (a b : Nat) (hb : b < 2 ^ 64) :
    ((u64 ((of_signed 128 (as_signed 64 a) * b % 2 ^ 128) >>> 64) : Nat) : Int) =
      as_signed 64 a * (b : Int) / 2 ^ 64 % 2 ^ 64 := by
  obtain ⟨ha1, ha2⟩ := as_signed_64_bounds a
  have hq : -(2 ^ 127) ≤ as_signed 64 a * (b : Int) ∧ as_signed 64 a * (b : Int) < 2 ^ 127 := by
    constructor
    · have h1 : -(2 ^ 63) * (b : Int) ≤ as_signed 64 a * (b : Int) :=
        mul_le_mul_of_nonneg_right ha1 (by omega)
      have h2 : -(2 ^ 63) * (b : Int) = -(2 ^ 63 * (b : Int)) := by ring
      omega
    · rcases Nat.eq_zero_or_pos b with hz | hp
      · subst hz; simp
      · have h1 : as_signed 64 a * (b : Int) < 2 ^ 63 * (b : Int) :=
          mul_lt_mul_of_pos_right ha2 (by omega)
        omega
  have hm : ((of_signed 128 (as_signed 64 a) : Nat) : Int) = as_signed 64 a ∨
      ((of_signed 128 (as_signed 64 a) : Nat) : Int) = as_signed 64 a + 2 ^ 128 := by
    unfold of_signed
    omega
  have hcast : ((u64 ((of_signed 128 (as_signed 64 a) * b % 2 ^ 128) >>> 64) : Nat) : Int) =
      ((of_signed 128 (as_signed 64 a) : Nat) : Int) * (b : Int) % 2 ^ 128 / 2 ^ 64
        % 2 ^ 64 := by
    unfold u64
    rw [Nat.shiftRight_eq_div_pow]
    push_cast
    rfl
  rw [hcast]
  rcases hm with hm | hm
  · rw [hm]
    generalize as_signed 64 a * (b : Int) = q at hq ⊢
    omega
  · rw [hm, add_mul]
    generalize as_signed 64 a * (b : Int) = q at hq ⊢
    omega

/-- C20: `MULHSU`.  For an `OP` word with `funct7 = 1` and `funct3 = 2` and a 64-bit
value `b` in `x[rs2]`, the instruction completes and writes to `rd` the 64-bit value
`floor(signed(a) * b / 2^64) mod 2^64`, where `a = x[rs1]` is read as a signed and `b` as
an unsigned 64-bit integer (`/` and `%` on the integers round down). -/
theorem mulhsu_high_word (inst : Nat) (s : VM) (hop : (decode inst).opcode = 0x33)
    (h7 : (decode inst).funct7 = 1) (h3 : (decode inst).funct3 = 2)
    (hb : s.read (decode inst).rs2 < 2 ^ 64) :
    ∃ r, execute_instruction inst s = .ok ((s.write 0 0).write (decode inst).rd r) ∧
      r < 2 ^ 64 ∧
      (r : Int) =
        as_signed 64 (s.read (decode inst).rs1) * (s.read (decode inst).rs2 : Int) / 2 ^ 64
          % 2 ^ 64 := by
  refine ⟨u64 ((of_signed 128 (as_signed 64 (s.read (decode inst).rs1)) *
      s.read (decode inst).rs2 % 2 ^ 128) >>> 64), ?_, Nat.mod_lt _ (by norm_num),
    mulhsu_arith _ _ hb⟩
  unfold execute_instruction
  simp only [hop]
  unfold exec_alu_reg
  simp only [h7, h3]
  simp [u8, VM.read]

/-- C20 at concrete operands: `MULHSU x7, x5, x6` (`0x0262A3B3`) with `x5 = x6 =
0xFFFFFFFFFFFFFFFF` gives `0xFFFFFFFFFFFFFFFF`, and with `x5 = 0xFFFFFFFFFFFFFFFF`,
`x6 = 2` gives `0xFFFFFFFFFFFFFFFF`. -/
theorem mulhsu_high_word_witness :
    (∃ r, execute_instruction 0x0262A3B3 (vm_x5_x6 0xFFFFFFFFFFFFFFFF 0xFFFFFFFFFFFFFFFF) =
        .ok (((vm_x5_x6 0xFFFFFFFFFFFFFFFF 0xFFFFFFFFFFFFFFFF).write 0 0).write 7 r) ∧
      r < 2 ^ 64 ∧ (r : Int) = (-1) * (0xFFFFFFFFFFFFFFFF : Int) / 2 ^ 64 % 2 ^ 64) ∧
    (∃ s', execute_instruction 0x0262A3B3
        (vm_x5_x6 0xFFFFFFFFFFFFFFFF 0xFFFFFFFFFFFFFFFF) = .ok s' ∧
      s'.x 7 = 0xFFFFFFFFFFFFFFFF) ∧
    (∃ s', execute_instruction 0x0262A3B3 (vm_x5_x6 0xFFFFFFFFFFFFFFFF 2) = .ok s' ∧
      s'.x 7 = 0xFFFFFFFFFFFFFFFF) :=
  ⟨mulhsu_high_word 0x0262A3B3 (vm_x5_x6 0xFFFFFFFFFFFFFFFF 0xFFFFFFFFFFFFFFFF) (by decide)
      (by decide) (by decide) (by decide),
    ⟨_, rfl, by decide⟩, ⟨_, rfl, by decide⟩⟩

/-! ### Undefined `funct7` values -/

/-- C22 (the code departs from the claim): the `OP` word `0x806283B3` (`funct7 = 0x40`,
`funct3 = 0`) executes as `ADD x7, x5, x6` and the `OP` word `0x426283B3`
(`funct7 = 0x21`, `funct3 = 0`) as `MUL x7, x5, x6`, and `load_program` accepts the image
of the two words: `op` is a `u8`, so the upper two bits of `funct7` are dropped before the
`switch`. -/
theorem unknown_funct7_executes :
    ((decode 0x806283B3).opcode = 0x33 ∧ (decode 0x806283B3).funct7 = 0x40 ∧
      (decode 0x806283B3).funct3 = 0 ∧ (decode 0x806283B3).rd = 7 ∧
      (decode 0x806283B3).rs1 = 5 ∧ (decode 0x806283B3).rs2 = 6) ∧
    ((decode 0x426283B3).opcode = 0x33 ∧ (decode 0x426283B3).funct7 = 0x21 ∧
      (decode 0x426283B3).funct3 = 0 ∧ (decode 0x426283B3).rd = 7 ∧
      (decode 0x426283B3).rs1 = 5 ∧ (decode 0x426283B3).rs2 = 6) ∧
    (∀ s, execute_instruction 0x806283B3 s =
      .ok ((s.write 0 0).write 7 (u64 (s.read 5 + s.read 6)))) ∧
    (∀ s, execute_instruction 0x426283B3 s =
      .ok ((s.write 0 0).write 7 (u64 (s.read 5 * s.read 6)))) ∧
    (∃ s', execute_instruction 0x806283B3 (vm_x5_x6 5 3) = .ok s' ∧ s'.x 7 = 8) ∧
    read_le image_unknown_funct7 0 4 = some 0x806283B3 ∧
    read_le image_unknown_funct7 4 4 = some 0x426283B3 ∧
    (∃ s', load_program image_unknown_funct7 (host_vm 64 [0] []) = some (.ok s')) :=
  ⟨by decide, by decide, fun _ => rfl, fun _ => rfl, ⟨_, rfl, rfl⟩, rfl, rfl, ⟨_, rfl⟩⟩

/-! ### Memory effects of the dry run -/

/-- C23 (the code departs from the claim): on a VM with a 64-byte stack, `load_program`
accepts the image `ADDI x1, x0, 1; SB x1, 0(x0)` and leaves the byte 1 in the first byte
of the stack, which was 0 before the call: with the data region detached the stack
occupies the addresses `[0, S)`, and the store of the dry run is carried out. -/
theorem validation_writes_stack :
    ((decode 0x00100023).opcode = 0x23 ∧ (decode 0x00100023).funct3 = 0 ∧
      (decode 0x00100023).rs1 = 0 ∧ (decode 0x00100023).rs2 = 1 ∧
      (decode 0x00100023).imm_s = 0) ∧
    (VM.construct 64).stack.get? 0 = some 0 ∧
    (∃ s', load_program image_addi_sb (VM.construct 64) = some (.ok s') ∧
      s'.stack.get? 0 = some 1) ∧
    (∃ s', load_program image_addi_sb (host_vm 64 [0, 0] []) = some (.ok s') ∧
      s'.stack.get? 0 = some 1 ∧ s'.data = [0, 0]) :=
  ⟨by decide, rfl, ⟨_, rfl, rfl⟩, ⟨_, rfl, rfl, rfl⟩⟩

/-! ### Rejected images -/

/-- The loop of the dry run never ends in an exception: every exception of the body is
caught. -/
theorem validate_loop_no_fault : ∀ (fuel : Nat) (err : List Fault) (s : VM) (e : Fault),
    validate_loop fuel err s ≠ some (.fault e) := by
  intro fuel
  induction fuel with
  | zero => intro err s e h; cases h
  | succ fuel ih =>
    intro err s e h
    unfold validate_loop at h
    split at h
    · dsimp only at h
      split at h
      · exact ih _ _ _ h
      · exact ih _ _ _ h
      · cases h
    · cases h

/-- C24: rejected programs stay installed.  An image of more than 1 MiB is refused with
*ProgramTooLarge* and the VM is left exactly as it was.  When `load_program` fails with
*InvalidProgram*, the image of the VM is the rejected byte sequence, every register
other than `x[2]` is 0, `x[2]` is `D + S`, and the data region is the one attached before
the call. -/
theorem rejected_program_stays_installed (prog : List Nat) (s : VM)
    (hsize : s.data.length + s.stack.length < 2 ^ 64) :
    (1024 * 1024 < prog.length → load_program prog s = some (.fault .program_too_large s)) ∧
    (∀ e s', load_program prog s = some (.fault e s') →
      (e = .program_too_large ∧ 1024 * 1024 < prog.length ∧ s' = s) ∨
      (e = .invalid_program ∧ prog.length ≤ 1024 * 1024 ∧ s'.program = prog ∧
        (∀ i, i ≠ 2 → s'.x i = 0) ∧ s'.x 2 = s.data.length + s.stack.length ∧
        s'.data = s.data ∧ s'.stack.length = s.stack.length)) := by
  constructor
  · intro h
    simp [load_program, h]
  · intro e s' h
    unfold load_program at h
    split at h
    · next hbig =>
      left
      have h1 := Option.some.inj h
      injection h1 with he hs
      exact ⟨he.symm, hbig, hs.symm⟩
    · next hsmall =>
      right
      unfold validate_program at h
      dsimp only at h
      split at h
      · cases h
      · cases h
      · next e1 hv => exact absurd hv (validate_loop_no_fault _ _ _ _)
      · next err s1 hv =>
        obtain ⟨g1, _, g3⟩ := validate_loop_shape _ _ _ _ _ hv
        split at h
        · have h1 := Option.some.inj h
          injection h1 with he hs
          subst he
          subst hs
          refine ⟨rfl, Nat.le_of_not_lt hsmall, g1, ?_, ?_, rfl, g3⟩
          · intro i hi
            simp [VM.write, hi]
          · simp only [VM.write, if_true]
            rw [g3]
            exact Nat.mod_eq_of_lt hsize
        · cases h

/-- C24 at a concrete image: the word `0xFFFFFFFF` is rejected with *InvalidProgram* by a
VM that held the image `JAL x0, 0`; afterwards the image of the VM is the rejected one, and
a following `execute_program` fetches and executes it (failing with *UnknownOpcode*). -/
theorem rejected_program_stays_installed_witness :
    ∃ s', load_program image_invalid_word (host_vm 64 [0] image_jal_self) =
        some (.fault .invalid_program s') ∧
      s'.program = image_invalid_word ∧ s'.x 2 = 1 + 64 ∧
      ∃ t, execute_program 2 0 100000 s' = some (.fault .unknown_opcode t) :=
  ⟨_, rfl,
    (((rejected_program_stays_installed image_invalid_word (host_vm 64 [0] image_jal_self)
      (by decide)).2 _ _ rfl).resolve_left (fun h => absurd h.1 (by decide))).2.2.1,
    (((rejected_program_stays_installed image_invalid_word (host_vm 64 [0] image_jal_self)
      (by decide)).2 _ _ rfl).resolve_left (fun h => absurd h.1 (by decide))).2.2.2.2.1,
    ⟨_, rfl⟩⟩

/-! ### Reading `x0` -/

theorem write_0_write_0 (s : VM) (v : Nat) : (s.write 0 v).write 0 0 = s.write 0 0 := by
  unfold VM.write
  congr 1
  funext i
  by_cases hi : i = 0 <;> simp [hi]

/-- C25: `x0` reads as zero as a source operand.  The outcome of `execute_instruction`
does not depend on the content of `x[0]` on entry: whatever value `v` it holds, the
instruction behaves as with `x[0] = 0`, and every register read inside the instruction
yields 0 for `x0` and the stored content for the other registers.  The sequence
`ADDI x0, x0, 5; ADDI x1, x0, 0` leaves `x1 = 0`. -/
theorem x0_reads_as_zero :
    (∀ (inst : Nat) (s : VM) (v : Nat),
      execute_instruction inst (s.write 0 v) = execute_instruction inst (s.write 0 0) ∧
      execute_instruction inst (s.write 0 v) = execute_instruction inst s) ∧
    (∀ (s : VM) (v r : Nat), (s.write 0 v).read r = if r = 0 then 0 else s.x r) ∧
    (∃ s1 s2, run_steps 1 (entry_state 0 (host_vm 64 [0] image_addi_x0_then_read)) = some s1 ∧
      s1.x 0 = 5 ∧
      execute_program 3 0 100000 (host_vm 64 [0] image_addi_x0_then_read) = some (.ok s2) ∧
      s2.x 1 = 0 ∧ s2.pc = 8) := by
  refine ⟨?_, ?_, ⟨_, _, rfl, rfl, rfl, rfl, rfl⟩⟩
  · intro inst s v
    have key : ∀ t : VM, execute_instruction inst t = execute_instruction inst (t.write 0 0) := by
      intro t
      unfold execute_instruction
      simp only [write_0_write_0]
    constructor
    · rw [key (s.write 0 v), key (s.write 0 0), write_0_write_0, write_0_write_0]
    · rw [key (s.write 0 v), key s, write_0_write_0]
  · intro s v r
    unfold VM.read VM.write
    by_cases hr : r = 0 <;> simp [hr]

/-! ### Branches -/

/-- Masking with a run of `j` ones shifted left by `k` selects the bits `k .. k+j-1`. -/
theorem and_shifted_mask (x j k : Nat) :
    x &&& ((2 ^ j - 1) <<< k) = (x / 2 ^ k % 2 ^ j) * 2 ^ k := by
  rw [← Nat.shiftLeft_eq, ← Nat.shiftRight_eq_div_pow]
  apply Nat.eq_of_testBit_eq
  intro i
  simp only [Nat.testBit_and, Nat.testBit_shiftLeft, Nat.testBit_two_pow_sub_one,
    Nat.testBit_mod_two_pow, Nat.testBit_shiftRight]
  by_cases hi : i ≥ k
  · have e : k + (i - k) = i := by omega
    simp [hi, e, Bool.and_comm]
  · simp [hi]

theorem imm_b_field_4_1 (x : Nat) : (x >>> 7) &&& 0x1e = 2 * (x / 2 ^ 8 % 16) := by
  have h := and_shifted_mask (x >>> 7) 4 1
  have e : (2 ^ 4 - 1) <<< 1 = 0x1e := by decide
  rw [e] at h
  rw [h, Nat.shiftRight_eq_div_pow, Nat.div_div_eq_div_mul]
  norm_num
  ring

theorem imm_b_field_10_5 (x : Nat) : (x >>> 20) &&& 0x7e0 = 32 * (x / 2 ^ 25 % 64) := by
  have h := and_shifted_mask (x >>> 20) 6 5
  have e : (2 ^ 6 - 1) <<< 5 = 0x7e0 := by decide
  rw [e] at h
  rw [h, Nat.shiftRight_eq_div_pow, Nat.div_div_eq_div_mul]
  norm_num
  ring

theorem imm_b_field_11 (x : Nat) : u32 ((x &&& 0x80) <<< 4) = 2048 * (x / 2 ^ 7 % 2) := by
  have h := and_shifted_mask x 1 7
  have e : (2 ^ 1 - 1) <<< 7 = 0x80 := by decide
  rw [e] at h
  rw [h, Nat.shiftLeft_eq]
  unfold u32
  omega

theorem imm_b_field_sign (x : Nat) :
    sar 64 (sign_extend 32 (x &&& 0x80000000)) 19 =
      4096 * (if x / 2 ^ 31 % 2 = 1 then 2 ^ 52 - 1 else 0) := by
  have h := and_shifted_mask x 1 31
  have e : (2 ^ 1 - 1) <<< 31 = 0x80000000 := by decide
  rw [e] at h
  rw [h]
  have hb : x / 2 ^ 31 % 2 ^ 1 = 0 ∨ x / 2 ^ 31 % 2 ^ 1 = 1 := by omega
  have hb' : x / 2 ^ 31 % 2 = x / 2 ^ 31 % 2 ^ 1 := by norm_num
  rw [hb']
  rcases hb with hb | hb <;> rw [hb] <;> decide

theorem or_of_fields (c b f g : Nat) (hb : b < 2) (hf : f < 64) (hg : g < 16) :
    4096 * c ||| 2048 * b ||| 32 * f ||| 2 * g = 4096 * c + 2048 * b + 32 * f + 2 * g := by
  have h1 := @Nat.mul_add_lt_is_or 12 (2048 * b) (by omega) c
  have h2 := @Nat.mul_add_lt_is_or 11 (32 * f) (by omega) (2 * c + b)
  have h3 := @Nat.mul_add_lt_is_or 5 (2 * g) (by omega) (128 * c + 64 * b + f)
  norm_num at h1 h2 h3
  rw [← h1]
  have e2 : 4096 * c + 2048 * b = 2048 * (2 * c + b) := by ring
  rw [e2, ← h2]
  have e3 : 2048 * (2 * c + b) + 32 * f = 32 * (128 * c + 64 * b + f) := by ring
  rw [e3, ← h3]

/-- The B-immediate in closed form. -/
theorem decode_imm_b (inst : Nat) :
    (decode inst).imm_b =
      (if inst / 2 ^ 31 % 2 = 1 then 2 ^ 64 - 4096 else 0) + 2048 * (inst / 2 ^ 7 % 2) +
        32 * (inst / 2 ^ 25 % 64) + 2 * (inst / 2 ^ 8 % 16) := by
  show sar 64 (sign_extend 32 (inst &&& 0x80000000)) 19 |||
    u32 ((inst &&& 0x80) <<< 4) ||| ((inst >>> 20) &&& 0x7e0) ||| ((inst >>> 7) &&& 0x1e) = _
  rw [imm_b_field_sign, imm_b_field_11, imm_b_field_10_5, imm_b_field_4_1,
    or_of_fields _ _ _ _ (Nat.mod_lt _ (by norm_num)) (Nat.mod_lt _ (by norm_num))
      (Nat.mod_lt _ (by norm_num))]
  split <;> omega

/-- The B-immediate is the 64-bit pattern of `branch_offset`, an even value in
`[-4096, 4094]`. -/
theorem imm_b_eq_branch_offset (inst : Nat) :
    ((decode inst).imm_b : Int) = branch_offset inst % 2 ^ 64 ∧
      -4096 ≤ branch_offset inst ∧ branch_offset inst ≤ 4094 ∧ branch_offset inst % 2 = 0 := by
  rw [decode_imm_b]
  unfold branch_offset
  refine ⟨?_, ?_, ?_, ?_⟩
  · split <;> (push_cast; omega)
  · omega
  · omega
  · omega

/-- A branch word (opcode `0x63`) fetched at byte address `p = pc`.
With `funct3` 2 or 3 it fails with *UnknownFunct*.  Otherwise it completes, and
afterwards `pc = (p + B) mod 2^64` when the condition holds and `pc = p + 4` when it does
not, where `B = branch_offset inst` is an even value in `[-4096, 4094]`; the registers
`x1 .. x31`, both memory regions, the image and the halt flag are unchanged, and `x[0]`
is 0. -/
theorem branch_semantics (s : VM) (inst : Nat) (hf : fetch s = some inst)
    (hlen : s.program.length < 2 ^ 64) (hop : (decode inst).opcode = 0x63) :
    (-4096 ≤ branch_offset inst ∧ branch_offset inst ≤ 4094 ∧ branch_offset inst % 2 = 0) ∧
    (((decode inst).funct3 = 2 ∨ (decode inst).funct3 = 3) →
      ∃ s', fetch_execute s = .fault .unknown_branch s' ∧
        (∀ i, i ≠ 0 → s'.x i = s.x i) ∧ s'.stack = s.stack ∧ s'.data = s.data) ∧
    (¬ ((decode inst).funct3 = 2 ∨ (decode inst).funct3 = 3) →
      ∃ s', fetch_execute s = .ok s' ∧
        (s'.pc : Int) =
          (if branch_condition (decode inst).funct3 (s.read (decode inst).rs1)
              (s.read (decode inst).rs2) = true then
            ((s.pc : Int) + branch_offset inst) % 2 ^ 64
          else (s.pc : Int) + 4) ∧
        (∀ i, i ≠ 0 → s'.x i = s.x i) ∧ s'.x 0 = 0 ∧ s'.stack = s.stack ∧
        s'.data = s.data ∧ s'.program = s.program ∧ s'.halted = s.halted) := by
  obtain ⟨himm, hB1, hB2, hB3⟩ := imm_b_eq_branch_offset inst
  have hb := fetch_in_bounds hf
  have e4 : u64 (s.pc + 4) = s.pc + 4 := Nat.mod_eq_of_lt (by omega)
  have hfe : fetch_execute s = exec_branch (decode inst).funct3 (decode inst).rs1
      (decode inst).rs2 (decode inst).imm_b
      (({ s with pc := u64 (s.pc + 4) } : VM).write 0 0) := by
    unfold fetch_execute
    rw [hf]
    unfold execute_instruction
    simp only [hop]
  refine ⟨⟨hB1, hB2, hB3⟩, ?_, ?_⟩
  · intro h3
    rw [hfe, exec_branch_undefined _ _ _ _ _ h3]
    exact ⟨_, rfl, fun i hi => by simp [VM.write, hi], rfl, rfl⟩
  · intro h3
    have hlt := decode_funct3_lt inst
    have hdef : (decode inst).funct3 = 0 ∨ (decode inst).funct3 = 1 ∨
        (decode inst).funct3 = 4 ∨ (decode inst).funct3 = 5 ∨ (decode inst).funct3 = 6 ∨
        (decode inst).funct3 = 7 := by omega
    rw [hfe, exec_branch_defined _ _ _ _ _ hdef]
    have hread : ∀ r, (({ s with pc := u64 (s.pc + 4) } : VM).write 0 0).x r = s.read r :=
      fun _ => rfl
    simp only [hread]
    by_cases hc : branch_condition (decode inst).funct3 (s.read (decode inst).rs1)
        (s.read (decode inst).rs2) = true
    · simp only [hc, if_true]
      refine ⟨_, rfl, ?_, fun i hi => by simp [VM.write, hi], rfl, rfl, rfl, rfl, rfl⟩
      show ((u64 (u64 (s.pc + 4) + u64 ((decode inst).imm_b + (2 ^ 64 - 4))) : Nat) : Int) = _
      rw [e4]
      unfold u64
      push_cast
      omega
    · simp only [hc, if_false]
      refine ⟨_, rfl, ?_, fun i hi => by simp [VM.write, hi], rfl, rfl, rfl, rfl, rfl⟩
      show ((u64 (s.pc + 4) : Nat) : Int) = _
      rw [e4]
      push_cast
      rfl

/-- The branch `BEQ x0, x0, 8` (`0x00000463`) fetched at address 0 is taken and leaves
`pc = 8`. -/
theorem branch_semantics_witness :
    ∃ s', fetch_execute (entry_state 0 (host_vm 64 [0] image_beq_skip)) = .ok s' ∧
      (s'.pc : Int) = 8 :=
  let ⟨s', h1, h2, _⟩ :=
    (branch_semantics (entry_state 0 (host_vm 64 [0] image_beq_skip)) 0x00000463 rfl
      (by decide) (by decide)).2.2 (by decide)
  ⟨s', h1, h2.trans (by decide)⟩

/-- C21 (the code departs from the claim): in the run of `ADDI x0, x0, 5; BEQ x0, x0, 8`
the branch is fetched at address 4 in a state with `x[0] = 5`; it completes with `pc = 12`
and `x[0] = 0`, so a branch has changed the content of a register.  The preceding `ADDI`
left 5 in `x[0]` because `x[0]` is cleared when an instruction starts, not when it ends. -/
theorem branch_clears_x0 :
    ((decode 0x00000463).opcode = 0x63 ∧ (decode 0x00000463).funct3 = 0 ∧
      (decode 0x00000463).rs1 = 0 ∧ (decode 0x00000463).rs2 = 0) ∧
    ∃ s1 s2, run_steps 1 (entry_state 0 (host_vm 64 [0] image_addi_x0_beq)) = some s1 ∧
      s1.pc = 4 ∧ s1.x 0 = 5 ∧ fetch s1 = some 0x00000463 ∧
      fetch_execute s1 = .ok s2 ∧ s2.pc = 12 ∧ s2.x 0 = 0 ∧ s2.x 0 ≠ s1.x 0 :=
  ⟨by decide, _, _, rfl, rfl, rfl, rfl, rfl, rfl, rfl, by decide⟩
end TinyRISCV64
